import Mathlib

/-!
# ZMTP v1 frame decoder (`src/v1_decoder.cpp`)

A shallow embedding of `zmq::v1_decoder_t`: the constructor and the four
handlers `one_byte_size_ready`, `eight_byte_size_ready`, `flags_ready` and
`message_ready` are translated statement by statement.  The collaborators that
are declared in headers outside `src/` (the message object `msg_t`, the
big-endian reader `get_uint64`, and `next_step` / the buffering engine of
`decoder_base_t`) are modelled from the specification and marked as such.
-/

namespace V1Decoder

/-! ## Errors and return codes -/

/-- The three `errno` values a handler can set. -/
inductive Errno where
  | EPROTO
  | EMSGSIZE
  | ENOMEM
  deriving DecidableEq, Repr

/-! ## Message object -/

/-- Modelled from the spec: the Message Object `msg_t` (declared in `msg.hpp`,
which is not among the sources).  `valid` records that the object is between an
initialisation and its release; `data` is the committed storage (`none` when no
storage is held) and `flags` the flag bits. -/
structure msg_t where
  valid : Bool
  data : Option (List UInt8)
  flags : UInt8
  deriving DecidableEq, Repr

/-- Modelled from the spec: the flag bit `msg_t::more` (bit 0, "continuation"). -/
def msg_t.more : UInt8 := 1

/-- Modelled from the spec: `msg_t::init`, initialize-empty (zero size, no
storage committed, no flags).  It always returns 0. -/
def msg_t.init (_m : msg_t) : msg_t :=
  { valid := true, data := none, flags := 0 }

/-- Modelled from the spec: `msg_t::close`, release.  It frees the current
storage and returns 0; on an object that is not initialised it fails, which
is `none` here. -/
def msg_t.close (m : msg_t) : Option msg_t :=
  if m.valid then some { valid := false, data := none, flags := 0 } else none

/-- Modelled from the spec: `msg_t::init_size`, initialize-with-size(n).  When
the allocation succeeds (`alloc n`) storage for exactly `n` bytes is committed
and 0 is returned; otherwise the call fails with `ENOMEM` (`none`) and commits
nothing. -/
def msg_t.init_size (alloc : Nat → Bool) (_m : msg_t) (n : Nat) : Option msg_t :=
  if alloc n then some { valid := true, data := some (List.replicate n 0), flags := 0 }
  else none

/-- Modelled from the spec: `msg_t::set_flags`, the flag setter. -/
def msg_t.set_flags (m : msg_t) (f : UInt8) : msg_t :=
  { m with flags := f }

/-- Modelled from the spec: `msg_t::size`, the number of bytes of storage. -/
def msg_t.size (m : msg_t) : Nat :=
  match m.data with
  | none => 0
  | some d => d.length

/-- The payload bytes held by a message (empty when no storage is held). -/
def msg_t.payload (m : msg_t) : List UInt8 :=
  match m.data with
  | none => []
  | some d => d

/-- The continuation flag of a message: bit `more` of its flags. -/
def msg_t.has_more (m : msg_t) : Bool :=
  (m.flags &&& msg_t.more) != 0

/-- The `empty` message of the spec: initialised, zero size, no flags, no
storage held. -/
def msg_t.empty : msg_t :=
  { valid := true, data := none, flags := 0 }

/-! ## Decoder state -/

/-- The four handlers of `v1_decoder_t`, as a state tag (the member-function
pointer `next` of the decoder base). -/
inductive Handler where
  | one_byte_size_ready
  | eight_byte_size_ready
  | flags_ready
  | message_ready
  deriving DecidableEq, Repr

/-- The two places a request can target: the private scratch buffer `tmpbuf`
or the in-progress message's own storage (`in_progress.data ()`). -/
inductive Target where
  | tmpbuf
  | msg_data
  deriving DecidableEq, Repr

/-- The decoder object: the fields of `v1_decoder_t` (`tmpbuf`, `in_progress`,
`maxmsgsize`) and the pending request kept by the decoder base (`read_pos`,
`to_read`, `next`). -/
structure v1_decoder_t where
  tmpbuf : List UInt8
  in_progress : msg_t
  maxmsgsize : Int
  read_pos : Target
  to_read : Nat
  next : Handler
  deriving DecidableEq, Repr

/-- Modelled from the spec: `next_step` of the decoder base (`decoder.hpp` is
not among the sources), the request "deliver exactly `to_read_` bytes into
`read_pos_`, then invoke `next_`". -/
def next_step (s : v1_decoder_t) (read_pos_ : Target) (to_read_ : Nat) (next_ : Handler) :
    v1_decoder_t :=
  { s with read_pos := read_pos_, to_read := to_read_, next := next_ }

/-- Modelled from the spec: `get_uint64` of `wire.hpp` (not among the
sources), the first 8 bytes of the buffer read as a big-endian unsigned 64-bit
number. -/
def get_uint64 (buf : List UInt8) : Nat :=
  (buf.take 8).foldl (fun acc b => acc * 256 + b.toNat) 0

/-- Modelled from the spec: `put_uint64` of `wire.hpp`, the 8 big-endian bytes
of a 64-bit number. -/
def put_uint64 (v : Nat) : List UInt8 :=
  [UInt8.ofNat (v / 2 ^ 56), UInt8.ofNat (v / 2 ^ 48), UInt8.ofNat (v / 2 ^ 40),
   UInt8.ofNat (v / 2 ^ 32), UInt8.ofNat (v / 2 ^ 24), UInt8.ofNat (v / 2 ^ 16),
   UInt8.ofNat (v / 2 ^ 8), UInt8.ofNat v]

/-- What a handler invocation produces: the `int` it returns, the `errno` it
sets (if it sets one) and the decoder afterwards. -/
structure Outcome where
  rc : Int
  err : Option Errno
  dec : v1_decoder_t
  deriving DecidableEq, Repr

/-- Constructor `v1_decoder_t::v1_decoder_t (bufsize_, maxmsgsize_)`:
`in_progress.init ()`, then `next_step (tmpbuf, 1, one_byte_size_ready)`.  The
scratch buffer has 8 bytes, uninitialised in the source and zero here. -/
def v1_decoder_t.new (_bufsize_ : Nat) (maxmsgsize_ : Int) : v1_decoder_t :=
  let s : v1_decoder_t :=
    { tmpbuf := List.replicate 8 0
      in_progress := msg_t.init { valid := false, data := none, flags := 0 }
      maxmsgsize := maxmsgsize_
      read_pos := Target.tmpbuf
      to_read := 0
      next := Handler.one_byte_size_ready }
  next_step s Target.tmpbuf 1 Handler.one_byte_size_ready

/-- The shared tail of both size handlers (source lines 84-95 and 126-137):
`close`, `assert (rc == 0)`, `init_size (n)`; on failure `init ()` and
`errno = ENOMEM; return -1`; otherwise `next_step (tmpbuf, 1, flags_ready)` and
`return 0`.  A failed assertion is `none`. -/
def alloc_in_progress (alloc : Nat → Bool) (s : v1_decoder_t) (n : Nat) : Option Outcome :=
  match s.in_progress.close with
  | none => none
  | some closed =>
    match msg_t.init_size alloc closed n with
    | none =>
      some { rc := -1, err := some Errno.ENOMEM,
             dec := { s with in_progress := msg_t.init closed } }
    | some m =>
      some { rc := 0, err := none,
             dec := next_step { s with in_progress := m } Target.tmpbuf 1 Handler.flags_ready }

/-- Handler `v1_decoder_t::one_byte_size_ready` (source lines 64-98).  `*tmpbuf`
is promoted to `int` in every comparison and in `*tmpbuf - 1`, hence `toNat`. -/
def one_byte_size_ready (alloc : Nat → Bool) (s : v1_decoder_t) : Option Outcome :=
  let b : Nat := (s.tmpbuf.getD 0 0).toNat
  if b = 0xff then
    some { rc := 0, err := none,
           dec := next_step s Target.tmpbuf 8 Handler.eight_byte_size_ready }
  else if b = 0 then
    some { rc := -1, err := some Errno.EPROTO, dec := s }
  else if s.maxmsgsize ≥ 0 ∧ ((b : Int) - 1) > s.maxmsgsize then
    some { rc := -1, err := some Errno.EMSGSIZE, dec := s }
  else
    alloc_in_progress alloc s (b - 1)

/-- The cast `(uint64_t) x` of a signed 64-bit value. -/
def to_uint64 (x : Int) : Nat := (x % 2 ^ 64).toNat

/-- Handler `v1_decoder_t::eight_byte_size_ready` (source lines 100-139).
`size_max` is `std::numeric_limits <size_t>::max ()` of the platform;
`payload_length - 1` is computed in unsigned 64-bit arithmetic and the
`static_cast <size_t>` reduces modulo `size_max + 1`. -/
def eight_byte_size_ready (size_max : Nat) (alloc : Nat → Bool) (s : v1_decoder_t) :
    Option Outcome :=
  let payload_length : Nat := get_uint64 s.tmpbuf
  if payload_length = 0 then
    some { rc := -1, err := some Errno.EPROTO, dec := s }
  else if s.maxmsgsize ≥ 0 ∧
      (payload_length + 2 ^ 64 - 1) % 2 ^ 64 > to_uint64 s.maxmsgsize then
    some { rc := -1, err := some Errno.EMSGSIZE, dec := s }
  else if (payload_length + 2 ^ 64 - 1) % 2 ^ 64 > size_max then
    some { rc := -1, err := some Errno.EMSGSIZE, dec := s }
  else
    let msg_size : Nat := ((payload_length + 2 ^ 64 - 1) % 2 ^ 64) % (size_max + 1)
    alloc_in_progress alloc s msg_size

/-- Handler `v1_decoder_t::flags_ready` (source lines 141-150). -/
def flags_ready (s : v1_decoder_t) : Option Outcome :=
  let s1 : v1_decoder_t :=
    { s with in_progress := s.in_progress.set_flags (s.tmpbuf.getD 0 0 &&& msg_t.more) }
  some { rc := 0, err := none,
         dec := next_step s1 Target.msg_data s1.in_progress.size Handler.message_ready }

/-- Handler `v1_decoder_t::message_ready` (source lines 152-158). -/
def message_ready (s : v1_decoder_t) : Option Outcome :=
  some { rc := 1, err := none,
         dec := next_step s Target.tmpbuf 1 Handler.one_byte_size_ready }

/-! ## Buffering engine -/

/-- Modelled from the spec: the Buffering Engine's delivery of the requested
bytes into the target location.  A delivery into the scratch buffer overwrites
its first bytes; a delivery into the in-progress message overwrites the first
bytes of its storage (nothing is written when no storage is held). -/
def deliver (s : v1_decoder_t) (bytes : List UInt8) : v1_decoder_t :=
  match s.read_pos with
  | Target.tmpbuf => { s with tmpbuf := bytes ++ s.tmpbuf.drop bytes.length }
  | Target.msg_data =>
    { s with in_progress :=
        { s.in_progress with
            data := s.in_progress.data.map (fun d => bytes ++ d.drop bytes.length) } }

/-- Invocation of the pending handler `next` (the member-function pointer call
of the decoder base). -/
def dispatch (size_max : Nat) (alloc : Nat → Bool) (s : v1_decoder_t) : Option Outcome :=
  match s.next with
  | Handler.one_byte_size_ready => one_byte_size_ready alloc s
  | Handler.eight_byte_size_ready => eight_byte_size_ready size_max alloc s
  | Handler.flags_ready => flags_ready s
  | Handler.message_ready => message_ready s

/-- Modelled from the spec: the Buffering Engine driving the decoder over one
chunk of input.  While the chunk still holds the requested `to_read` bytes they
are delivered and the pending handler is invoked; the loop ends when a handler
returns non-zero (message ready or failure) or the chunk cannot satisfy the
pending request (result 0).  The second component is the number of bytes
consumed.  `none` is a failed assertion or exhausted fuel. -/
def decode (size_max : Nat) (alloc : Nat → Bool) :
    Nat → v1_decoder_t → List UInt8 → Option (Outcome × Nat)
  | 0, _, _ => none
  | fuel + 1, s, input =>
    if input.length < s.to_read then
      some ({ rc := 0, err := none, dec := s }, 0)
    else
      match dispatch size_max alloc (deliver s (input.take s.to_read)) with
      | none => none
      | some o =>
        if o.rc ≠ 0 then some (o, s.to_read)
        else
          match decode size_max alloc fuel o.dec (input.drop s.to_read) with
          | none => none
          | some (o2, n) => some (o2, s.to_read + n)

/-! ## Wire format -/

/-- The short-form frame of the wire format: declared length `P + 1` in one
byte, the flags byte, `P` payload bytes. -/
def short_frame (f : UInt8) (payload : List UInt8) : List UInt8 :=
  UInt8.ofNat (payload.length + 1) :: f :: payload

/-- The long-form frame of the wire format: the marker `0xFF`, the declared
length `P + 1` in 8 big-endian bytes, the flags byte, `P` payload bytes. -/
def long_frame (f : UInt8) (payload : List UInt8) : List UInt8 :=
  0xff :: (put_uint64 (payload.length + 1) ++ f :: payload)

/-- The decoder awaits the short size: the pending request is 1 byte into the
scratch buffer for `one_byte_size_ready` (AwaitShortSize). -/
def awaiting_short_size (s : v1_decoder_t) : Prop :=
  s.next = Handler.one_byte_size_ready ∧ s.read_pos = Target.tmpbuf ∧ s.to_read = 1

instance (s : v1_decoder_t) : Decidable (awaiting_short_size s) := by
  unfold awaiting_short_size
  infer_instance

/-- The decoder awaits the long size: the pending request is 8 bytes into the
scratch buffer for `eight_byte_size_ready` (AwaitLongSize). -/
def awaiting_long_size (s : v1_decoder_t) : Prop :=
  s.next = Handler.eight_byte_size_ready ∧ s.read_pos = Target.tmpbuf ∧ s.to_read = 8

instance (s : v1_decoder_t) : Decidable (awaiting_long_size s) := by
  unfold awaiting_long_size
  infer_instance

/-- The decoder awaits the flags byte: the pending request is 1 byte into the
scratch buffer for `flags_ready` (AwaitFlags). -/
def awaiting_flags (s : v1_decoder_t) : Prop :=
  s.next = Handler.flags_ready ∧ s.read_pos = Target.tmpbuf ∧ s.to_read = 1

instance (s : v1_decoder_t) : Decidable (awaiting_flags s) := by
  unfold awaiting_flags
  infer_instance

/-- The decoder awaits the body: the pending request is the in-progress
message's size, into the message's own storage, for `message_ready`
(AwaitBody). -/
def awaiting_body (s : v1_decoder_t) : Prop :=
  s.next = Handler.message_ready ∧ s.read_pos = Target.msg_data ∧
    s.to_read = s.in_progress.size

instance (s : v1_decoder_t) : Decidable (awaiting_body s) := by
  unfold awaiting_body
  infer_instance

/-- A concrete decoder awaiting the body: the state a fresh unlimited decoder
reaches on the bytes `[0x04, 0x00]` once the body `"ABC"` has been delivered
into the message. -/
def abc_body_state : v1_decoder_t :=
  { tmpbuf := [0, 0, 0, 0, 0, 0, 0, 0]
    in_progress := { valid := true, data := some [0x41, 0x42, 0x43], flags := 0 }
    maxmsgsize := -1
    read_pos := Target.msg_data
    to_read := 3
    next := Handler.message_ready }

/-- A well-formed frame for a decoder configuration: the payload length is
within the configured bound (or no bound is configured), the allocation of the
payload succeeds, and the bytes are the short form (payload of at most 253
bytes) or the long form (declared length within 64 bits, payload within
`size_t`, bound within the signed 64-bit range) of the flags byte and
payload. -/
def well_formed_frame (size_max : Nat) (maxmsgsize : Int) (alloc : Nat → Bool) (f : UInt8)
    (payload frame : List UInt8) : Prop :=
  (maxmsgsize < 0 ∨ (payload.length : Int) ≤ maxmsgsize) ∧ alloc payload.length = true ∧
  ((frame = short_frame f payload ∧ payload.length ≤ 253) ∨
   (frame = long_frame f payload ∧ payload.length + 1 < 2 ^ 64 ∧ payload.length ≤ size_max ∧
      maxmsgsize < 2 ^ 63))

instance (size_max : Nat) (maxmsgsize : Int) (alloc : Nat → Bool) (f : UInt8)
    (payload frame : List UInt8) :
    Decidable (well_formed_frame size_max maxmsgsize alloc f payload frame) := by
  unfold well_formed_frame
  infer_instance

/-- What the consumer observes of a decode run: the return code, the `errno`,
the in-progress message and the number of bytes consumed. -/
def observe (r : Option (Outcome × Nat)) : Option (Int × Option Errno × msg_t × Nat) :=
  r.map (fun x => (x.1.rc, x.1.err, x.1.dec.in_progress, x.2))

/-- A handler result is a failure with the given `errno`: it returned `-1`
after setting `errno` to `e`. -/
def fails_with (r : Option Outcome) (e : Errno) : Prop :=
  match r with
  | none => False
  | some o => o.rc = -1 ∧ o.err = some e

instance (r : Option Outcome) (e : Errno) : Decidable (fails_with r e) := by
  unfold fails_with
  split <;> infer_instance

/-! ## Streams, chunks, reachable states and message-object traces -/

/-- A frame on the wire (`bytes`) together with the flags byte and payload it
encodes. -/
structure wire_frame where
  flags : UInt8
  payload : List UInt8
  bytes : List UInt8
  deriving DecidableEq, Repr

/-- The message a frame carries: its payload, with the continuation flag taken
from bit 0 of its flags byte. -/
def wire_frame.message (fr : wire_frame) : msg_t :=
  { valid := true, data := some fr.payload, flags := fr.flags &&& msg_t.more }

/-- The bytes of a list of frames, concatenated in order. -/
def stream_of (frames : List wire_frame) : List UInt8 :=
  (frames.map (fun fr => fr.bytes)).flatten

/-- Modelled from the spec: the producer interface over one stream.  The
engine decodes (`decode`, with `fuel` handler invocations per message); each
time a handler signals message-ready the consumer takes the completed message
from the in-progress slot and decoding goes on with the rest of the stream.
The result is the list of messages in stream order and the outcome that ended
the run (0: the stream is exhausted, -1: failure).  The first number bounds the
count of messages. -/
def decode_stream (size_max : Nat) (alloc : Nat → Bool) (fuel : Nat) :
    Nat → v1_decoder_t → List UInt8 → Option (List msg_t × Outcome)
  | 0, _, _ => none
  | k + 1, s, input =>
    match decode size_max alloc fuel s input with
    | none => none
    | some (o, n) =>
      if o.rc = 1 then
        match decode_stream size_max alloc fuel k o.dec (input.drop n) with
        | none => none
        | some (msgs, last) => some (o.dec.in_progress :: msgs, last)
      else some ([], o)

/-- Modelled from the spec: the Buffering Engine with its accumulation
buffer: the decoder and the bytes that have arrived but do not yet satisfy the
pending request. -/
structure engine_t where
  dec : v1_decoder_t
  pending : List UInt8
  deriving DecidableEq, Repr

/-- Modelled from the spec: one chunk arrives at the Buffering Engine.  The
chunk is appended to the accumulated bytes and the decoder is driven over
them; a handler runs only once its requested byte count is present, and the
bytes not consumed stay accumulated. -/
def engine_t.feed (size_max : Nat) (alloc : Nat → Bool) (fuel : Nat) (e : engine_t)
    (chunk : List UInt8) : Option (Outcome × engine_t) :=
  match decode size_max alloc fuel e.dec (e.pending ++ chunk) with
  | none => none
  | some (o, n) => some (o, { dec := o.dec, pending := (e.pending ++ chunk).drop n })

/-- Modelled from the spec: a sequence of chunks arrives at the Buffering
Engine, one after the other, until a handler returns non-zero (message ready
or failure) or the chunks are used up (result 0). -/
def engine_t.feed_all (size_max : Nat) (alloc : Nat → Bool) (fuel : Nat) :
    engine_t → List (List UInt8) → Option (Outcome × engine_t)
  | e, [] => some ({ rc := 0, err := none, dec := e.dec }, e)
  | e, chunk :: chunks =>
    match engine_t.feed size_max alloc fuel e chunk with
    | none => none
    | some (o, e2) =>
      if o.rc ≠ 0 then some (o, e2) else engine_t.feed_all size_max alloc fuel e2 chunks

/-- The decoder states that handler invocations can reach from a freshly
constructed decoder: each step delivers exactly the requested `to_read` bytes
into the requested target and invokes the pending handler, with any
allocation outcome. -/
inductive reachable (size_max : Nat) (bufsize : Nat) (maxmsgsize : Int) :
    v1_decoder_t → Prop where
  | init : reachable size_max bufsize maxmsgsize (v1_decoder_t.new bufsize maxmsgsize)
  | step (s : v1_decoder_t) (alloc : Nat → Bool) (bytes : List UInt8) (o : Outcome) :
      reachable size_max bufsize maxmsgsize s → bytes.length = s.to_read →
      dispatch size_max alloc (deliver s bytes) = some o →
      reachable size_max bufsize maxmsgsize o.dec

/-- Modelled from the spec: the storage accounting of the Message Object
("never leaking or double-owning storage").  `live` counts the buffers
committed by `init_size` and not yet freed by `close`, `releases` the `close`
calls that succeeded, `clobbered` the initialisations (`init_size`, `init`)
made over a message that still held a buffer. -/
structure storage_t where
  live : Nat
  releases : Nat
  clobbered : Nat
  deriving DecidableEq, Repr

/-- The number of buffers a message owns: 1 when it holds storage, else 0. -/
def msg_t.holds (m : msg_t) : Nat :=
  match m.data with
  | none => 0
  | some _ => 1

/-- Modelled from the spec: `msg_t::close` with its effect on storage: the
buffer the message owns is freed and the release is counted. -/
def msg_t.close_acct (m : msg_t) (h : storage_t) : Option (msg_t × storage_t) :=
  match m.close with
  | none => none
  | some closed =>
    some (closed, { h with live := h.live - m.holds, releases := h.releases + 1 })

/-- Modelled from the spec: `msg_t::init_size` with its effect on storage: a
successful call commits one more buffer; made over a message that still owns a
buffer it clobbers that buffer, which stays live.  A failed call changes
nothing. -/
def msg_t.init_size_acct (alloc : Nat → Bool) (m : msg_t) (h : storage_t) (n : Nat) :
    Option msg_t × storage_t :=
  match msg_t.init_size alloc m n with
  | none => (none, h)
  | some m2 => (some m2, { h with live := h.live + 1, clobbered := h.clobbered + m.holds })

/-- Modelled from the spec: `msg_t::init` with its effect on storage: made
over a message that still owns a buffer it clobbers that buffer. -/
def msg_t.init_acct (m : msg_t) (h : storage_t) : msg_t × storage_t :=
  (m.init, { h with clobbered := h.clobbered + m.holds })

/-- Constructor `v1_decoder_t::v1_decoder_t` with storage accounting:
`in_progress.init ()` on the not yet initialised message, with no buffer
live, then `next_step (tmpbuf, 1, one_byte_size_ready)`. -/
def v1_decoder_t.new_acct (_bufsize_ : Nat) (maxmsgsize_ : Int) : v1_decoder_t × storage_t :=
  let raw : msg_t := { valid := false, data := none, flags := 0 }
  let r := msg_t.init_acct raw { live := 0, releases := 0, clobbered := 0 }
  let s : v1_decoder_t :=
    { tmpbuf := List.replicate 8 0
      in_progress := r.1
      maxmsgsize := maxmsgsize_
      read_pos := Target.tmpbuf
      to_read := 0
      next := Handler.one_byte_size_ready }
  (next_step s Target.tmpbuf 1 Handler.one_byte_size_ready, r.2)

/-- The shared tail of both size handlers (source lines 84-95 and 126-137)
with storage accounting: `close`, `assert (rc == 0)`, `init_size (n)`; on
failure `init ()` and `errno = ENOMEM; return -1`; otherwise
`next_step (tmpbuf, 1, flags_ready)` and `return 0`. -/
def alloc_in_progress_acct (alloc : Nat → Bool) (s : v1_decoder_t) (h : storage_t) (n : Nat) :
    Option (Outcome × storage_t) :=
  match s.in_progress.close_acct h with
  | none => none
  | some (closed, h1) =>
    match msg_t.init_size_acct alloc closed h1 n with
    | (none, h2) =>
      some ({ rc := -1, err := some Errno.ENOMEM,
              dec := { s with in_progress := (msg_t.init_acct closed h2).1 } },
            (msg_t.init_acct closed h2).2)
    | (some m, h2) =>
      some ({ rc := 0, err := none,
              dec := next_step { s with in_progress := m } Target.tmpbuf 1
                Handler.flags_ready }, h2)

/-- Handler `v1_decoder_t::one_byte_size_ready` (source lines 64-98) with
storage accounting. -/
def one_byte_size_ready_acct (alloc : Nat → Bool) (s : v1_decoder_t) (h : storage_t) :
    Option (Outcome × storage_t) :=
  let b : Nat := (s.tmpbuf.getD 0 0).toNat
  if b = 0xff then
    some ({ rc := 0, err := none,
            dec := next_step s Target.tmpbuf 8 Handler.eight_byte_size_ready }, h)
  else if b = 0 then
    some ({ rc := -1, err := some Errno.EPROTO, dec := s }, h)
  else if s.maxmsgsize ≥ 0 ∧ ((b : Int) - 1) > s.maxmsgsize then
    some ({ rc := -1, err := some Errno.EMSGSIZE, dec := s }, h)
  else
    alloc_in_progress_acct alloc s h (b - 1)

/-- Handler `v1_decoder_t::eight_byte_size_ready` (source lines 100-139) with
storage accounting. -/
def eight_byte_size_ready_acct (size_max : Nat) (alloc : Nat → Bool) (s : v1_decoder_t)
    (h : storage_t) : Option (Outcome × storage_t) :=
  let payload_length : Nat := get_uint64 s.tmpbuf
  if payload_length = 0 then
    some ({ rc := -1, err := some Errno.EPROTO, dec := s }, h)
  else if s.maxmsgsize ≥ 0 ∧
      (payload_length + 2 ^ 64 - 1) % 2 ^ 64 > to_uint64 s.maxmsgsize then
    some ({ rc := -1, err := some Errno.EMSGSIZE, dec := s }, h)
  else if (payload_length + 2 ^ 64 - 1) % 2 ^ 64 > size_max then
    some ({ rc := -1, err := some Errno.EMSGSIZE, dec := s }, h)
  else
    let msg_size : Nat := ((payload_length + 2 ^ 64 - 1) % 2 ^ 64) % (size_max + 1)
    alloc_in_progress_acct alloc s h msg_size

/-- Handler `v1_decoder_t::flags_ready` (source lines 141-150) with storage
accounting: `set_flags` neither frees nor commits storage. -/
def flags_ready_acct (s : v1_decoder_t) (h : storage_t) : Option (Outcome × storage_t) :=
  let s1 : v1_decoder_t :=
    { s with in_progress := s.in_progress.set_flags (s.tmpbuf.getD 0 0 &&& msg_t.more) }
  some ({ rc := 0, err := none,
          dec := next_step s1 Target.msg_data s1.in_progress.size Handler.message_ready }, h)

/-- Handler `v1_decoder_t::message_ready` (source lines 152-158) with storage
accounting: it makes no call on the message. -/
def message_ready_acct (s : v1_decoder_t) (h : storage_t) : Option (Outcome × storage_t) :=
  some ({ rc := 1, err := none,
          dec := next_step s Target.tmpbuf 1 Handler.one_byte_size_ready }, h)

/-- Invocation of the pending handler, with storage accounting. -/
def dispatch_acct (size_max : Nat) (alloc : Nat → Bool) (s : v1_decoder_t) (h : storage_t) :
    Option (Outcome × storage_t) :=
  match s.next with
  | Handler.one_byte_size_ready => one_byte_size_ready_acct alloc s h
  | Handler.eight_byte_size_ready => eight_byte_size_ready_acct size_max alloc s h
  | Handler.flags_ready => flags_ready_acct s h
  | Handler.message_ready => message_ready_acct s h

/-- The decoders and storage accounts that handler invocations can reach from
a freshly constructed decoder, with any bytes delivered into the requested
target and any allocation outcome. -/
inductive reachable_acct (size_max : Nat) (bufsize : Nat) (maxmsgsize : Int) :
    v1_decoder_t → storage_t → Prop where
  | init : reachable_acct size_max bufsize maxmsgsize
      (v1_decoder_t.new_acct bufsize maxmsgsize).1 (v1_decoder_t.new_acct bufsize maxmsgsize).2
  | step (s : v1_decoder_t) (h : storage_t) (alloc : Nat → Bool) (bytes : List UInt8)
      (o : Outcome) (h2 : storage_t) :
      reachable_acct size_max bufsize maxmsgsize s h →
      dispatch_acct size_max alloc (deliver s bytes) h = some (o, h2) →
      reachable_acct size_max bufsize maxmsgsize o.dec h2

/-- A concrete decoder between two frames: the state a fresh unlimited decoder
reaches on the frame `[0x04, 0x00, 0x41, 0x42, 0x43]`; the in-progress slot
still holds the message `"ABC"`. -/
def abc_done_state : v1_decoder_t :=
  { tmpbuf := [0, 0, 0, 0, 0, 0, 0, 0]
    in_progress := { valid := true, data := some [0x41, 0x42, 0x43], flags := 0 }
    maxmsgsize := -1
    read_pos := Target.tmpbuf
    to_read := 1
    next := Handler.one_byte_size_ready }

/-- Two concrete frames: the short frame `[0x02, 0x01, 0x58]` (payload `"X"`,
continuation) followed by the short frame `[0x04, 0x00, 0x41, 0x42, 0x43]`
(payload `"ABC"`, final). -/
def example_frames : List wire_frame :=
  [{ flags := 0x01, payload := [0x58], bytes := [0x02, 0x01, 0x58] },
   { flags := 0x00, payload := [0x41, 0x42, 0x43], bytes := [0x04, 0x00, 0x41, 0x42, 0x43] }]

/-! ## Auxiliary facts -/

theorem land_more_toNat (b : UInt8) : (b &&& msg_t.more).toNat = b.toNat % 2 := by
  show (b.toBitVec &&& (1 : UInt8).toBitVec).toNat = b.toBitVec.toNat % 2
  rw [BitVec.toNat_and]
  exact Nat.and_one_is_mod b.toBitVec.toNat

theorem has_more_iff (v : Bool) (d : Option (List UInt8)) (f : UInt8) :
    msg_t.has_more { valid := v, data := d, flags := f &&& msg_t.more } = true ↔
      f.toNat % 2 = 1 := by
  have h1 := land_more_toNat f
  have h2 := land_more_toNat (f &&& msg_t.more)
  simp only [msg_t.has_more, bne_iff_ne, ne_eq]
  constructor
  · intro h
    by_contra hc
    apply h
    apply UInt8.ext_iff.mpr
    rw [h2, h1]
    show f.toNat % 2 % 2 = 0
    omega
  · intro h hc
    have h3 := congrArg UInt8.toNat hc
    rw [h2, h1] at h3
    have h4 : (0 : UInt8).toNat = 0 := rfl
    omega

theorem foldl_be_lt (l : List UInt8) (acc k : Nat) (hacc : acc < 256 ^ k) :
    l.foldl (fun a b => a * 256 + b.toNat) acc < 256 ^ (k + l.length) := by
  induction l generalizing acc k with
  | nil => simpa using hacc
  | cons b t ih =>
    have hb : b.toNat < 256 := UInt8.toNat_lt b
    have h1 : acc * 256 + b.toNat < 256 ^ (k + 1) := by
      rw [pow_succ]
      nlinarith
    have h2 := ih (acc * 256 + b.toNat) (k + 1) h1
    have h3 : k + 1 + t.length = k + (b :: t).length := by
      simp only [List.length_cons]; omega
    rw [h3] at h2
    exact h2

theorem get_uint64_lt (buf : List UInt8) : get_uint64 buf < 2 ^ 64 := by
  have h := foldl_be_lt (buf.take 8) 0 0 (by norm_num)
  have hlen : (buf.take 8).length ≤ 8 := by
    rw [List.length_take]; omega
  have h2 : 256 ^ (0 + (buf.take 8).length) ≤ 256 ^ 8 :=
    Nat.pow_le_pow_right (by norm_num) (by omega)
  have h3 : (256 : Nat) ^ 8 = 2 ^ 64 := by norm_num
  unfold get_uint64
  omega

theorem get_put_uint64 (v : Nat) (hv : v < 2 ^ 64) (rest : List UInt8) :
    get_uint64 (put_uint64 v ++ rest) = v := by
  simp only [get_uint64, put_uint64, List.cons_append, List.nil_append, List.take_succ_cons,
    List.take_zero, List.foldl_cons, List.foldl_nil]
  show ((((((((0 * 256 + (v / 2 ^ 56) % 256) * 256 + (v / 2 ^ 48) % 256) * 256
    + (v / 2 ^ 40) % 256) * 256 + (v / 2 ^ 32) % 256) * 256 + (v / 2 ^ 24) % 256) * 256
    + (v / 2 ^ 16) % 256) * 256 + (v / 2 ^ 8) % 256) * 256 + v % 256) = v
  norm_num at hv ⊢
  omega

theorem to_uint64_of_nonneg (x : Int) (h0 : 0 ≤ x) (h1 : x < 2 ^ 63) :
    (to_uint64 x : Int) = x := by
  unfold to_uint64
  have h2 : x % 2 ^ 64 = x := Int.emod_eq_of_lt h0 (by omega)
  rw [h2]
  exact Int.toNat_of_nonneg h0

theorem alloc_in_progress_ok (alloc : Nat → Bool) (s : v1_decoder_t) (n : Nat)
    (hv : s.in_progress.valid = true) (ha : alloc n = true) :
    alloc_in_progress alloc s n =
      some { rc := 0, err := none,
             dec := { s with
               in_progress := { valid := true, data := some (List.replicate n 0), flags := 0 }
               read_pos := Target.tmpbuf, to_read := 1, next := Handler.flags_ready } } := by
  simp [alloc_in_progress, msg_t.close, msg_t.init_size, next_step, hv, ha]

theorem alloc_in_progress_fail (alloc : Nat → Bool) (s : v1_decoder_t) (n : Nat)
    (hv : s.in_progress.valid = true) (ha : alloc n = false) :
    alloc_in_progress alloc s n =
      some { rc := -1, err := some Errno.ENOMEM,
             dec := { s with in_progress := msg_t.empty } } := by
  simp [alloc_in_progress, msg_t.close, msg_t.init_size, msg_t.init, msg_t.empty, hv, ha]

theorem alloc_in_progress_not_proto_msgsize (alloc : Nat → Bool) (s : v1_decoder_t) (n : Nat) :
    ¬ fails_with (alloc_in_progress alloc s n) Errno.EPROTO ∧
      ¬ fails_with (alloc_in_progress alloc s n) Errno.EMSGSIZE := by
  unfold alloc_in_progress msg_t.close msg_t.init_size
  by_cases hv : s.in_progress.valid = true <;> by_cases ha : alloc n = true <;>
    simp [fails_with, hv, ha]

theorem one_byte_size_ready_long (alloc : Nat → Bool) (s : v1_decoder_t)
    (h : (s.tmpbuf.getD 0 0).toNat = 0xff) :
    one_byte_size_ready alloc s =
      some { rc := 0, err := none,
             dec := next_step s Target.tmpbuf 8 Handler.eight_byte_size_ready } := by
  unfold one_byte_size_ready
  dsimp only
  rw [if_pos h]

theorem one_byte_size_ready_zero (alloc : Nat → Bool) (s : v1_decoder_t)
    (h : (s.tmpbuf.getD 0 0).toNat = 0) :
    one_byte_size_ready alloc s = some { rc := -1, err := some Errno.EPROTO, dec := s } := by
  unfold one_byte_size_ready
  dsimp only
  rw [if_neg (by omega), if_pos h]

theorem one_byte_size_ready_too_large (alloc : Nat → Bool) (s : v1_decoder_t)
    (hff : (s.tmpbuf.getD 0 0).toNat ≠ 0xff) (h0 : (s.tmpbuf.getD 0 0).toNat ≠ 0)
    (hm : s.maxmsgsize ≥ 0 ∧ ((s.tmpbuf.getD 0 0).toNat : Int) - 1 > s.maxmsgsize) :
    one_byte_size_ready alloc s = some { rc := -1, err := some Errno.EMSGSIZE, dec := s } := by
  unfold one_byte_size_ready
  dsimp only
  rw [if_neg hff, if_neg h0, if_pos hm]

theorem one_byte_size_ready_else (alloc : Nat → Bool) (s : v1_decoder_t)
    (hff : (s.tmpbuf.getD 0 0).toNat ≠ 0xff) (h0 : (s.tmpbuf.getD 0 0).toNat ≠ 0)
    (hm : ¬ (s.maxmsgsize ≥ 0 ∧ ((s.tmpbuf.getD 0 0).toNat : Int) - 1 > s.maxmsgsize)) :
    one_byte_size_ready alloc s =
      alloc_in_progress alloc s ((s.tmpbuf.getD 0 0).toNat - 1) := by
  unfold one_byte_size_ready
  dsimp only
  rw [if_neg hff, if_neg h0, if_neg hm]

theorem eight_byte_size_ready_zero (size_max : Nat) (alloc : Nat → Bool) (s : v1_decoder_t)
    (h : get_uint64 s.tmpbuf = 0) :
    eight_byte_size_ready size_max alloc s =
      some { rc := -1, err := some Errno.EPROTO, dec := s } := by
  unfold eight_byte_size_ready
  dsimp only
  rw [if_pos h]

theorem eight_byte_size_ready_over_bound (size_max : Nat) (alloc : Nat → Bool)
    (s : v1_decoder_t) (h0 : get_uint64 s.tmpbuf ≠ 0)
    (hm : s.maxmsgsize ≥ 0 ∧
      (get_uint64 s.tmpbuf + 2 ^ 64 - 1) % 2 ^ 64 > to_uint64 s.maxmsgsize) :
    eight_byte_size_ready size_max alloc s =
      some { rc := -1, err := some Errno.EMSGSIZE, dec := s } := by
  unfold eight_byte_size_ready
  dsimp only
  rw [if_neg h0, if_pos hm]

theorem eight_byte_size_ready_over_size_t (size_max : Nat) (alloc : Nat → Bool)
    (s : v1_decoder_t) (h0 : get_uint64 s.tmpbuf ≠ 0)
    (hm : ¬ (s.maxmsgsize ≥ 0 ∧
      (get_uint64 s.tmpbuf + 2 ^ 64 - 1) % 2 ^ 64 > to_uint64 s.maxmsgsize))
    (hsz : (get_uint64 s.tmpbuf + 2 ^ 64 - 1) % 2 ^ 64 > size_max) :
    eight_byte_size_ready size_max alloc s =
      some { rc := -1, err := some Errno.EMSGSIZE, dec := s } := by
  unfold eight_byte_size_ready
  dsimp only
  rw [if_neg h0, if_neg hm, if_pos hsz]

theorem eight_byte_size_ready_else (size_max : Nat) (alloc : Nat → Bool)
    (s : v1_decoder_t) (h0 : get_uint64 s.tmpbuf ≠ 0)
    (hm : ¬ (s.maxmsgsize ≥ 0 ∧
      (get_uint64 s.tmpbuf + 2 ^ 64 - 1) % 2 ^ 64 > to_uint64 s.maxmsgsize))
    (hsz : ¬ (get_uint64 s.tmpbuf + 2 ^ 64 - 1) % 2 ^ 64 > size_max) :
    eight_byte_size_ready size_max alloc s =
      alloc_in_progress alloc s
        (((get_uint64 s.tmpbuf + 2 ^ 64 - 1) % 2 ^ 64) % (size_max + 1)) := by
  unfold eight_byte_size_ready
  dsimp only
  rw [if_neg h0, if_neg hm, if_neg hsz]

theorem fails_with_some (o : Outcome) (e : Errno) :
    fails_with (some o) e ↔ o.rc = -1 ∧ o.err = some e := Iff.rfl

theorem one_byte_size_ready_accept (alloc : Nat → Bool) (s : v1_decoder_t)
    (h1 : 1 ≤ (s.tmpbuf.getD 0 0).toNat) (h2 : (s.tmpbuf.getD 0 0).toNat ≤ 254)
    (hb : s.maxmsgsize < 0 ∨ ((s.tmpbuf.getD 0 0).toNat : Int) - 1 ≤ s.maxmsgsize) :
    one_byte_size_ready alloc s = alloc_in_progress alloc s ((s.tmpbuf.getD 0 0).toNat - 1) := by
  unfold one_byte_size_ready
  have hff : ¬ (s.tmpbuf.getD 0 0).toNat = 0xff := by omega
  have h0 : ¬ (s.tmpbuf.getD 0 0).toNat = 0 := by omega
  have hm : ¬ (s.maxmsgsize ≥ 0 ∧ ((s.tmpbuf.getD 0 0).toNat : Int) - 1 > s.maxmsgsize) := by
    omega
  simp only [hff, h0, hm, if_false]

theorem eight_byte_size_ready_accept (size_max : Nat) (alloc : Nat → Bool) (s : v1_decoder_t)
    (h1 : 1 ≤ get_uint64 s.tmpbuf) (hs : get_uint64 s.tmpbuf - 1 ≤ size_max)
    (hmax : s.maxmsgsize < 2 ^ 63)
    (hb : s.maxmsgsize < 0 ∨ ((get_uint64 s.tmpbuf - 1 : Nat) : Int) ≤ s.maxmsgsize) :
    eight_byte_size_ready size_max alloc s =
      alloc_in_progress alloc s (get_uint64 s.tmpbuf - 1) := by
  unfold eight_byte_size_ready
  have hlt := get_uint64_lt s.tmpbuf
  have hwrap : (get_uint64 s.tmpbuf + 2 ^ 64 - 1) % 2 ^ 64 = get_uint64 s.tmpbuf - 1 := by
    omega
  have h0 : ¬ get_uint64 s.tmpbuf = 0 := by omega
  have hm : ¬ (s.maxmsgsize ≥ 0 ∧ get_uint64 s.tmpbuf - 1 > to_uint64 s.maxmsgsize) := by
    rintro ⟨hge, hgt⟩
    have := to_uint64_of_nonneg s.maxmsgsize hge hmax
    omega
  have hsz : ¬ get_uint64 s.tmpbuf - 1 > size_max := by omega
  have hmod : (get_uint64 s.tmpbuf - 1) % (size_max + 1) = get_uint64 s.tmpbuf - 1 :=
    Nat.mod_eq_of_lt (by omega)
  simp only [hwrap, h0, hm, hsz, hmod, if_false]

/-! ## Validation of the declared length -/

/-- C3: for every decoder state (hence every configuration of the maximum
message size, unlimited, zero or positive) `one_byte_size_ready` fails with
`EPROTO` if and only if the size byte in the scratch buffer is `0x00`; on a
zero byte the result is the `EPROTO` failure whatever the bound, so the zero
check takes precedence over the size-bound check. -/
theorem C3_one_byte_size_ready_eproto_iff_zero (alloc : Nat → Bool) (s : v1_decoder_t) :
    (fails_with (one_byte_size_ready alloc s) Errno.EPROTO ↔ s.tmpbuf.getD 0 0 = 0) ∧
    (s.tmpbuf.getD 0 0 = 0 →
      one_byte_size_ready alloc s = some { rc := -1, err := some Errno.EPROTO, dec := s } ∧
      ¬ fails_with (one_byte_size_ready alloc s) Errno.EMSGSIZE) := by
  have hz : s.tmpbuf.getD 0 0 = 0 ↔ (s.tmpbuf.getD 0 0).toNat = 0 := by
    constructor
    · intro h; rw [h]; rfl
    · intro h; exact UInt8.ext_iff.mpr h
  have key := one_byte_size_ready_zero alloc s
  refine ⟨⟨?_, ?_⟩, ?_⟩
  · intro hf
    rw [hz]
    by_contra h0
    by_cases hff : (s.tmpbuf.getD 0 0).toNat = 0xff
    · rw [one_byte_size_ready_long alloc s hff, fails_with_some] at hf
      exact absurd hf.1 (by simp)
    · by_cases hm : s.maxmsgsize ≥ 0 ∧ ((s.tmpbuf.getD 0 0).toNat : Int) - 1 > s.maxmsgsize
      · rw [one_byte_size_ready_too_large alloc s hff h0 hm, fails_with_some] at hf
        exact absurd hf.2 (by simp)
      · rw [one_byte_size_ready_else alloc s hff h0 hm] at hf
        exact (alloc_in_progress_not_proto_msgsize alloc s _).1 hf
  · intro h
    rw [key (hz.mp h), fails_with_some]
    exact ⟨rfl, rfl⟩
  · intro h
    rw [key (hz.mp h), fails_with_some]
    exact ⟨rfl, fun hc => absurd hc.2 (by simp)⟩

/-- C4: for every decoder state (hence every configuration of the maximum
message size, a bound of 0 included) `eight_byte_size_ready` fails with
`EPROTO` if and only if the 8 scratch bytes, read big-endian, are the declared
length 0; for the length 0 the result is the `EPROTO` failure and never
`EMSGSIZE`, although `L - 1` wraps around in unsigned 64-bit arithmetic.  The
last part restates the equivalence for the 8 big-endian bytes of any 64-bit
`L`. -/
theorem C4_eight_byte_size_ready_eproto_iff_zero (size_max : Nat) (alloc : Nat → Bool)
    (s : v1_decoder_t) :
    (fails_with (eight_byte_size_ready size_max alloc s) Errno.EPROTO ↔
      get_uint64 s.tmpbuf = 0) ∧
    (get_uint64 s.tmpbuf = 0 →
      eight_byte_size_ready size_max alloc s =
        some { rc := -1, err := some Errno.EPROTO, dec := s } ∧
      ¬ fails_with (eight_byte_size_ready size_max alloc s) Errno.EMSGSIZE) ∧
    (∀ L : Nat, L < 2 ^ 64 →
      (fails_with (eight_byte_size_ready size_max alloc { s with tmpbuf := put_uint64 L })
        Errno.EPROTO ↔ L = 0)) := by
  have key := eight_byte_size_ready_zero size_max alloc
  have main : ∀ t : v1_decoder_t,
      (fails_with (eight_byte_size_ready size_max alloc t) Errno.EPROTO ↔
        get_uint64 t.tmpbuf = 0) := by
    intro t
    constructor
    · intro hf
      by_contra h0
      by_cases hm : t.maxmsgsize ≥ 0 ∧
          (get_uint64 t.tmpbuf + 2 ^ 64 - 1) % 2 ^ 64 > to_uint64 t.maxmsgsize
      · rw [eight_byte_size_ready_over_bound size_max alloc t h0 hm, fails_with_some] at hf
        exact absurd hf.2 (by simp)
      · by_cases hsz : (get_uint64 t.tmpbuf + 2 ^ 64 - 1) % 2 ^ 64 > size_max
        · rw [eight_byte_size_ready_over_size_t size_max alloc t h0 hm hsz,
            fails_with_some] at hf
          exact absurd hf.2 (by simp)
        · rw [eight_byte_size_ready_else size_max alloc t h0 hm hsz] at hf
          exact (alloc_in_progress_not_proto_msgsize alloc t _).1 hf
    · intro h
      rw [key t h, fails_with_some]
      exact ⟨rfl, rfl⟩
  refine ⟨main s, ?_, ?_⟩
  · intro h
    rw [key s h, fails_with_some]
    exact ⟨rfl, fun hc => absurd hc.2 (by simp)⟩
  · intro L hL
    have hg : get_uint64 ({ s with tmpbuf := put_uint64 L } : v1_decoder_t).tmpbuf = L := by
      have := get_put_uint64 L hL []
      simpa using this
    rw [main, hg]

/-- C5: for a long-form declared length `L ≥ 1` in the scratch buffer,
`eight_byte_size_ready` fails with `EMSGSIZE` if and only if a bound
`maxmsgsize ≥ 0` is configured and the payload length `L - 1` exceeds it, or
`L - 1` exceeds the largest `size_t` value; with a negative `maxmsgsize` only
the `size_t` overflow triggers it; a payload length exactly equal to the bound
(and within `size_t`) is accepted and goes on to the allocation of `L - 1`
bytes. -/
theorem C5_eight_byte_size_ready_emsgsize_iff (size_max : Nat) (alloc : Nat → Bool)
    (s : v1_decoder_t) (hL : 1 ≤ get_uint64 s.tmpbuf) (hmax : s.maxmsgsize < 2 ^ 63) :
    (fails_with (eight_byte_size_ready size_max alloc s) Errno.EMSGSIZE ↔
      (0 ≤ s.maxmsgsize ∧ s.maxmsgsize < ((get_uint64 s.tmpbuf - 1 : Nat) : Int)) ∨
        size_max < get_uint64 s.tmpbuf - 1) ∧
    (s.maxmsgsize < 0 →
      (fails_with (eight_byte_size_ready size_max alloc s) Errno.EMSGSIZE ↔
        size_max < get_uint64 s.tmpbuf - 1)) ∧
    (((get_uint64 s.tmpbuf - 1 : Nat) : Int) = s.maxmsgsize →
      get_uint64 s.tmpbuf - 1 ≤ size_max →
      eight_byte_size_ready size_max alloc s =
        alloc_in_progress alloc s (get_uint64 s.tmpbuf - 1)) := by
  have hlt := get_uint64_lt s.tmpbuf
  have hwrap : (get_uint64 s.tmpbuf + 2 ^ 64 - 1) % 2 ^ 64 = get_uint64 s.tmpbuf - 1 := by
    omega
  have h0 : get_uint64 s.tmpbuf ≠ 0 := by omega
  have main : fails_with (eight_byte_size_ready size_max alloc s) Errno.EMSGSIZE ↔
      (0 ≤ s.maxmsgsize ∧ s.maxmsgsize < ((get_uint64 s.tmpbuf - 1 : Nat) : Int)) ∨
        size_max < get_uint64 s.tmpbuf - 1 := by
    by_cases hm : s.maxmsgsize ≥ 0 ∧
        (get_uint64 s.tmpbuf + 2 ^ 64 - 1) % 2 ^ 64 > to_uint64 s.maxmsgsize
    · rw [eight_byte_size_ready_over_bound size_max alloc s h0 hm, fails_with_some]
      have hc := to_uint64_of_nonneg s.maxmsgsize hm.1 hmax
      have h2 := hm.2
      rw [hwrap] at h2
      exact ⟨fun _ => Or.inl ⟨hm.1, by omega⟩, fun _ => ⟨rfl, rfl⟩⟩
    · have hnb : ¬ (0 ≤ s.maxmsgsize ∧
          s.maxmsgsize < ((get_uint64 s.tmpbuf - 1 : Nat) : Int)) := by
        rintro ⟨hge, hgt⟩
        apply hm
        have hc := to_uint64_of_nonneg s.maxmsgsize hge hmax
        refine ⟨hge, ?_⟩
        rw [hwrap]
        omega
      by_cases hsz : (get_uint64 s.tmpbuf + 2 ^ 64 - 1) % 2 ^ 64 > size_max
      · rw [eight_byte_size_ready_over_size_t size_max alloc s h0 hm hsz, fails_with_some]
        rw [hwrap] at hsz
        exact ⟨fun _ => Or.inr hsz, fun _ => ⟨rfl, rfl⟩⟩
      · rw [eight_byte_size_ready_else size_max alloc s h0 hm hsz]
        rw [hwrap] at hsz
        constructor
        · intro hf
          exact absurd hf (alloc_in_progress_not_proto_msgsize alloc s _).2
        · rintro (hb | hb)
          · exact absurd hb hnb
          · exact absurd hb hsz
  refine ⟨main, ?_, ?_⟩
  · intro hneg
    rw [main]
    constructor
    · rintro (hb | hb)
      · omega
      · exact hb
    · exact Or.inr
  · intro heq hsz
    exact eight_byte_size_ready_accept size_max alloc s hL hsz hmax (Or.inr (by omega))

/-- Witness of C5: with bound 3 and declared length 5 (payload length 4) the
handler fails with `EMSGSIZE`. -/
theorem C5_eight_byte_size_ready_emsgsize_iff_witness :
    1 ≤ get_uint64 (put_uint64 5) ∧ ((3 : Int) < 2 ^ 63) ∧
    fails_with (eight_byte_size_ready (2 ^ 64 - 1) (fun _ => true)
      { tmpbuf := put_uint64 5, in_progress := msg_t.empty, maxmsgsize := 3,
        read_pos := Target.tmpbuf, to_read := 8,
        next := Handler.eight_byte_size_ready }) Errno.EMSGSIZE :=
  ⟨by decide, by decide,
    (C5_eight_byte_size_ready_emsgsize_iff (2 ^ 64 - 1) (fun _ => true)
      { tmpbuf := put_uint64 5, in_progress := msg_t.empty, maxmsgsize := 3,
        read_pos := Target.tmpbuf, to_read := 8,
        next := Handler.eight_byte_size_ready } (by decide) (by decide)).1.mpr
      (Or.inl (by decide))⟩

/-- C6: for a short-form size byte `b` in `0x01..0xFE`, `one_byte_size_ready`
fails with `EMSGSIZE` if and only if a bound `maxmsgsize ≥ 0` is configured and
the payload length `b - 1` exceeds it; the bound applies to `b - 1`, so the
declared length `maxmsgsize + 1` is accepted and goes on to the allocation of
`b - 1` bytes, and with a negative `maxmsgsize` no short-form frame is rejected
as too large. -/
theorem C6_one_byte_size_ready_emsgsize_iff (alloc : Nat → Bool) (s : v1_decoder_t)
    (h1 : 1 ≤ (s.tmpbuf.getD 0 0).toNat) (h2 : (s.tmpbuf.getD 0 0).toNat ≤ 254) :
    (fails_with (one_byte_size_ready alloc s) Errno.EMSGSIZE ↔
      0 ≤ s.maxmsgsize ∧ s.maxmsgsize < ((s.tmpbuf.getD 0 0).toNat : Int) - 1) ∧
    (((s.tmpbuf.getD 0 0).toNat : Int) = s.maxmsgsize + 1 →
      one_byte_size_ready alloc s =
        alloc_in_progress alloc s ((s.tmpbuf.getD 0 0).toNat - 1)) ∧
    (s.maxmsgsize < 0 → ¬ fails_with (one_byte_size_ready alloc s) Errno.EMSGSIZE) := by
  have hff : (s.tmpbuf.getD 0 0).toNat ≠ 0xff := by omega
  have h0 : (s.tmpbuf.getD 0 0).toNat ≠ 0 := by omega
  have main : fails_with (one_byte_size_ready alloc s) Errno.EMSGSIZE ↔
      0 ≤ s.maxmsgsize ∧ s.maxmsgsize < ((s.tmpbuf.getD 0 0).toNat : Int) - 1 := by
    by_cases hm : s.maxmsgsize ≥ 0 ∧ ((s.tmpbuf.getD 0 0).toNat : Int) - 1 > s.maxmsgsize
    · rw [one_byte_size_ready_too_large alloc s hff h0 hm, fails_with_some]
      exact ⟨fun _ => hm, fun _ => ⟨rfl, rfl⟩⟩
    · rw [one_byte_size_ready_else alloc s hff h0 hm]
      constructor
      · intro hf
        exact absurd hf (alloc_in_progress_not_proto_msgsize alloc s _).2
      · intro hb
        exact absurd hb hm
  refine ⟨main, ?_, ?_⟩
  · intro heq
    exact one_byte_size_ready_accept alloc s h1 h2 (Or.inr (by omega))
  · intro hneg
    rw [main]
    omega

/-- Witness of C6: with bound 2 the size byte 4 (payload length 3) fails with
`EMSGSIZE`. -/
theorem C6_one_byte_size_ready_emsgsize_iff_witness :
    1 ≤ (([4, 0, 0, 0, 0, 0, 0, 0] : List UInt8).getD 0 0).toNat ∧
    (([4, 0, 0, 0, 0, 0, 0, 0] : List UInt8).getD 0 0).toNat ≤ 254 ∧
    fails_with (one_byte_size_ready (fun _ => true)
      { tmpbuf := [4, 0, 0, 0, 0, 0, 0, 0], in_progress := msg_t.empty, maxmsgsize := 2,
        read_pos := Target.tmpbuf, to_read := 1,
        next := Handler.one_byte_size_ready }) Errno.EMSGSIZE :=
  ⟨by decide, by decide,
    (C6_one_byte_size_ready_emsgsize_iff (fun _ => true)
      { tmpbuf := [4, 0, 0, 0, 0, 0, 0, 0], in_progress := msg_t.empty, maxmsgsize := 2,
        read_pos := Target.tmpbuf, to_read := 1,
        next := Handler.one_byte_size_ready } (by decide) (by decide)).1.mpr (by decide)⟩

/-! ## Flags and completion -/

theorem land_more_congr (f1 f2 : UInt8) (h : f1.toNat % 2 = f2.toNat % 2) :
    f1 &&& msg_t.more = f2 &&& msg_t.more := by
  apply UInt8.ext_iff.mpr
  rw [land_more_toNat, land_more_toNat, h]

theorem flags_ready_deliver (s : v1_decoder_t) (f : UInt8) (hrp : s.read_pos = Target.tmpbuf) :
    flags_ready (deliver s [f]) =
      some { rc := 0, err := none,
             dec := { tmpbuf := f :: s.tmpbuf.drop 1
                      in_progress := { s.in_progress with flags := f &&& msg_t.more }
                      maxmsgsize := s.maxmsgsize
                      read_pos := Target.msg_data
                      to_read := s.in_progress.size
                      next := Handler.message_ready } } := by
  simp [flags_ready, deliver, hrp, next_step, msg_t.set_flags, msg_t.size]

/-- C7: for every decoder awaiting flags and every two flags bytes that agree
on bit 0, `flags_ready` returns 0 for both and leaves the same in-progress
message and the same next request (the message's size into the message's own
storage, for `message_ready`); the continuation flag of the message is set
exactly when bit 0 of the flags byte is 1 (`0x01` continuation, `0x00` final),
the message's storage is untouched, and no flags byte makes the handler
fail. -/
theorem C7_flags_ready_depends_only_on_bit0 (s : v1_decoder_t) (f1 f2 : UInt8)
    (hs : awaiting_flags s) (hbit : f1.toNat % 2 = f2.toNat % 2) :
    ∃ o1 o2 : Outcome,
      flags_ready (deliver s [f1]) = some o1 ∧ flags_ready (deliver s [f2]) = some o2 ∧
      o1.rc = 0 ∧ o2.rc = 0 ∧ o1.err = none ∧ o2.err = none ∧
      o1.dec.in_progress = o2.dec.in_progress ∧
      o1.dec.read_pos = o2.dec.read_pos ∧ o1.dec.to_read = o2.dec.to_read ∧
      o1.dec.next = o2.dec.next ∧
      awaiting_body o1.dec ∧
      (o1.dec.in_progress.has_more = true ↔ f1.toNat % 2 = 1) ∧
      (f1 = 0x01 → o1.dec.in_progress.has_more = true) ∧
      (f1 = 0x00 → o1.dec.in_progress.has_more = false) ∧
      o1.dec.in_progress.data = s.in_progress.data ∧
      o1.dec.in_progress.valid = s.in_progress.valid := by
  obtain ⟨_, hrp, _⟩ := hs
  have hmore : (msg_t.has_more { s.in_progress with flags := f1 &&& msg_t.more } = true ↔
      f1.toNat % 2 = 1) := has_more_iff _ _ f1
  refine ⟨_, _, flags_ready_deliver s f1 hrp, flags_ready_deliver s f2 hrp, rfl, rfl, rfl, rfl,
    ?_, rfl, rfl, rfl, ⟨rfl, rfl, rfl⟩, hmore, ?_, ?_, rfl, rfl⟩
  · show ({ s.in_progress with flags := f1 &&& msg_t.more } : msg_t) =
      { s.in_progress with flags := f2 &&& msg_t.more }
    rw [land_more_congr f1 f2 hbit]
  · intro h
    exact hmore.mpr (by rw [h]; rfl)
  · intro h
    have hn : ¬ (f1.toNat % 2 = 1) := by rw [h]; decide
    have := mt hmore.mp hn
    simpa using this

/-- Witness of C7: the flags bytes `0x01` and `0xFF` agree on bit 0. -/
theorem C7_flags_ready_depends_only_on_bit0_witness :
    awaiting_flags { abc_body_state with read_pos := Target.tmpbuf, to_read := 1,
                                         next := Handler.flags_ready } ∧
    (0x01 : UInt8).toNat % 2 = (0xff : UInt8).toNat % 2 ∧
    ∃ o1 o2 : Outcome,
      flags_ready (deliver { abc_body_state with read_pos := Target.tmpbuf, to_read := 1,
                                                 next := Handler.flags_ready } [0x01]) = some o1 ∧
      flags_ready (deliver { abc_body_state with read_pos := Target.tmpbuf, to_read := 1,
                                                 next := Handler.flags_ready } [0xff]) = some o2 ∧
      o1.dec.in_progress = o2.dec.in_progress ∧ o1.dec.in_progress.has_more = true :=
  ⟨by decide, by decide,
    match C7_flags_ready_depends_only_on_bit0
      { abc_body_state with read_pos := Target.tmpbuf, to_read := 1,
                            next := Handler.flags_ready } 0x01 0xff (by decide) (by decide) with
    | ⟨o1, o2, h1, h2, _, _, _, _, h3, _, _, _, _, _, h4, _⟩ => ⟨o1, o2, h1, h2, h3, h4 rfl⟩⟩

/-- C10: the claim says that `message_ready` resets the in-progress slot to a
fresh empty message, and so does the comment in the handler ("in_progress is
a 0-byte message after this point"); the code does not.  On the decoder
awaiting the body `"ABC"` (a fresh unlimited decoder after the bytes
`[0x04, 0x00]`, with the body delivered) `message_ready` returns 1 and the
in-progress slot afterwards still holds the 3-byte message `"ABC"`: its size
is 3 and it is not the empty message. -/
theorem C10_message_ready_keeps_message :
    (decode (2 ^ 64 - 1) (fun _ => true) 3 (v1_decoder_t.new 8192 (-1)) [0x04, 0x00]).map
      (fun r => deliver r.1.dec [0x41, 0x42, 0x43]) = some abc_body_state ∧
    awaiting_body abc_body_state ∧
    (message_ready abc_body_state).map (fun o => o.rc) = some 1 ∧
    (message_ready abc_body_state).map (fun o => o.dec.in_progress) =
      some { valid := true, data := some [0x41, 0x42, 0x43], flags := 0 } ∧
    (message_ready abc_body_state).map (fun o => o.dec.in_progress.size) = some 3 ∧
    (message_ready abc_body_state).map (fun o => o.dec.in_progress) ≠ some msg_t.empty := by
  decide

/-- What `message_ready` does on every decoder: it returns 1 without setting
`errno` and issues the request of 1 byte into the scratch buffer for
`one_byte_size_ready`; the in-progress message, the scratch buffer and the
bound are as before the call. -/
theorem message_ready_rearms (s : v1_decoder_t) :
    ∃ o : Outcome, message_ready s = some o ∧
      o.rc = 1 ∧ o.err = none ∧
      awaiting_short_size o.dec ∧
      o.dec.in_progress = s.in_progress ∧
      o.dec.tmpbuf = s.tmpbuf ∧ o.dec.maxmsgsize = s.maxmsgsize :=
  ⟨_, rfl, rfl, rfl, ⟨rfl, rfl, rfl⟩, rfl, rfl, rfl⟩

/-! ## Allocation failure -/

/-- C8: on a decoder whose in-progress message is initialised, when the size
passes validation (short form: byte `b` in `0x01..0xFE` within the bound; long
form: declared length `L ≥ 1` within the bound and within `size_t`) and the
allocation of the payload length fails, the size handler returns `-1` with
`ENOMEM` and leaves the in-progress message empty: initialised, zero size, no
flags, no storage held.  Nothing else of the decoder changes. -/
theorem C8_alloc_failure_enomem_empty (size_max : Nat) (alloc : Nat → Bool)
    (s : v1_decoder_t) (hv : s.in_progress.valid = true) :
    (1 ≤ (s.tmpbuf.getD 0 0).toNat → (s.tmpbuf.getD 0 0).toNat ≤ 254 →
      (s.maxmsgsize < 0 ∨ ((s.tmpbuf.getD 0 0).toNat : Int) - 1 ≤ s.maxmsgsize) →
      alloc ((s.tmpbuf.getD 0 0).toNat - 1) = false →
      one_byte_size_ready alloc s =
        some { rc := -1, err := some Errno.ENOMEM,
               dec := { s with in_progress := msg_t.empty } }) ∧
    (1 ≤ get_uint64 s.tmpbuf → get_uint64 s.tmpbuf - 1 ≤ size_max →
      s.maxmsgsize < 2 ^ 63 →
      (s.maxmsgsize < 0 ∨ ((get_uint64 s.tmpbuf - 1 : Nat) : Int) ≤ s.maxmsgsize) →
      alloc (get_uint64 s.tmpbuf - 1) = false →
      eight_byte_size_ready size_max alloc s =
        some { rc := -1, err := some Errno.ENOMEM,
               dec := { s with in_progress := msg_t.empty } }) ∧
    (msg_t.empty.valid = true ∧ msg_t.empty.size = 0 ∧ msg_t.empty.flags = 0 ∧
      msg_t.empty.data = none) := by
  refine ⟨?_, ?_, rfl, rfl, rfl, rfl⟩
  · intro h1 h2 hb ha
    rw [one_byte_size_ready_accept alloc s h1 h2 hb]
    exact alloc_in_progress_fail alloc s _ hv ha
  · intro h1 hsz hmax hb ha
    rw [eight_byte_size_ready_accept size_max alloc s h1 hsz hmax hb]
    exact alloc_in_progress_fail alloc s _ hv ha

/-- Witness of C8: a fresh decoder with the size byte 4 in the scratch buffer and
a failing allocator. -/
theorem C8_alloc_failure_enomem_empty_witness :
    (deliver (v1_decoder_t.new 8192 (-1)) [4]).in_progress.valid = true ∧
    one_byte_size_ready (fun _ => false) (deliver (v1_decoder_t.new 8192 (-1)) [4]) =
      some { rc := -1, err := some Errno.ENOMEM,
             dec := { deliver (v1_decoder_t.new 8192 (-1)) [4] with
                        in_progress := msg_t.empty } } :=
  ⟨by decide,
    (C8_alloc_failure_enomem_empty (2 ^ 64 - 1) (fun _ => false)
      (deliver (v1_decoder_t.new 8192 (-1)) [4]) (by decide)).1
      (by decide) (by decide) (by decide) rfl⟩

theorem decode_continue (size_max : Nat) (alloc : Nat → Bool) (fuel : Nat) (s : v1_decoder_t)
    (input : List UInt8) (o : Outcome) (hlen : s.to_read ≤ input.length)
    (hd : dispatch size_max alloc (deliver s (input.take s.to_read)) = some o)
    (hrc : o.rc = 0) :
    decode size_max alloc (fuel + 1) s input =
      (decode size_max alloc fuel o.dec (input.drop s.to_read)).map
        (fun r => (r.1, s.to_read + r.2)) := by
  rw [decode, if_neg (by omega), hd]
  simp only [hrc, ne_eq, not_true_eq_false, if_false]
  cases decode size_max alloc fuel o.dec (input.drop s.to_read) <;> rfl

theorem decode_stop (size_max : Nat) (alloc : Nat → Bool) (fuel : Nat) (s : v1_decoder_t)
    (input : List UInt8) (o : Outcome) (hlen : s.to_read ≤ input.length)
    (hd : dispatch size_max alloc (deliver s (input.take s.to_read)) = some o)
    (hrc : o.rc ≠ 0) :
    decode size_max alloc (fuel + 1) s input = some (o, s.to_read) := by
  rw [decode, if_neg (by omega), hd]
  simp only [hrc, ne_eq, not_false_eq_true, if_true]

theorem decode_suspend (size_max : Nat) (alloc : Nat → Bool) (fuel : Nat) (s : v1_decoder_t)
    (input : List UInt8) (hlen : input.length < s.to_read) :
    decode size_max alloc (fuel + 1) s input = some ({ rc := 0, err := none, dec := s }, 0) := by
  rw [decode, if_pos hlen]

theorem decode_flags_body (size_max : Nat) (alloc : Nat → Bool) (s : v1_decoder_t)
    (f : UInt8) (d payload rest : List UInt8) (fuel : Nat)
    (hs : awaiting_flags s) (hdata : s.in_progress.data = some d)
    (hlen : d.length = payload.length) (hfuel : 2 ≤ fuel) :
    decode size_max alloc fuel s (f :: (payload ++ rest)) =
      some ({ rc := 1, err := none,
              dec := { tmpbuf := f :: s.tmpbuf.drop 1
                       in_progress := { valid := s.in_progress.valid, data := some payload,
                                        flags := f &&& msg_t.more }
                       maxmsgsize := s.maxmsgsize
                       read_pos := Target.tmpbuf
                       to_read := 1
                       next := Handler.one_byte_size_ready } }, payload.length + 1) := by
  obtain ⟨k, rfl⟩ : ∃ k, fuel = k + 2 := ⟨fuel - 2, by omega⟩
  obtain ⟨hnext, hrp, htr⟩ := hs
  obtain ⟨tb, ⟨v, dat, fl⟩, mm, rp, tr, nx⟩ := s
  simp only at hnext hrp htr hdata
  subst hnext hrp htr hdata
  have h1 := decode_continue size_max alloc (k + 1)
    { tmpbuf := tb, in_progress := { valid := v, data := some d, flags := fl }, maxmsgsize := mm,
      read_pos := Target.tmpbuf, to_read := 1, next := Handler.flags_ready }
    (f :: (payload ++ rest))
    { rc := 0, err := none,
      dec := { tmpbuf := f :: tb.drop 1
               in_progress := { valid := v, data := some d, flags := f &&& msg_t.more }
               maxmsgsize := mm
               read_pos := Target.msg_data
               to_read := d.length
               next := Handler.message_ready } }
    (by simp) (by simp [dispatch, deliver, flags_ready, next_step, msg_t.set_flags, msg_t.size])
    rfl
  rw [h1]
  have h2 := decode_stop size_max alloc k
    { tmpbuf := f :: tb.drop 1
      in_progress := { valid := v, data := some d, flags := f &&& msg_t.more }
      maxmsgsize := mm
      read_pos := Target.msg_data
      to_read := d.length
      next := Handler.message_ready }
    (payload ++ rest)
    { rc := 1, err := none,
      dec := { tmpbuf := f :: tb.drop 1
               in_progress := { valid := v, data := some payload, flags := f &&& msg_t.more }
               maxmsgsize := mm
               read_pos := Target.tmpbuf
               to_read := 1
               next := Handler.one_byte_size_ready } }
    (by simp [hlen])
    (by simp [dispatch, deliver, message_ready, next_step, hlen])
    (by simp)
  simp only [List.drop_succ_cons, List.drop_zero]
  rw [h2]
  simp only [Option.map_some', hlen]
  rw [Nat.add_comm 1 payload.length]

theorem decode_short_frame (size_max : Nat) (alloc : Nat → Bool) (s : v1_decoder_t)
    (f : UInt8) (payload rest : List UInt8) (fuel : Nat)
    (hs : awaiting_short_size s) (hv : s.in_progress.valid = true)
    (hP : payload.length ≤ 253)
    (hb : s.maxmsgsize < 0 ∨ (payload.length : Int) ≤ s.maxmsgsize)
    (ha : alloc payload.length = true) (hfuel : 3 ≤ fuel) :
    decode size_max alloc fuel s (short_frame f payload ++ rest) =
      some ({ rc := 1, err := none,
              dec := { tmpbuf := f :: s.tmpbuf.drop 1
                       in_progress := { valid := true, data := some payload,
                                        flags := f &&& msg_t.more }
                       maxmsgsize := s.maxmsgsize
                       read_pos := Target.tmpbuf
                       to_read := 1
                       next := Handler.one_byte_size_ready } }, payload.length + 2) := by
  obtain ⟨k, rfl⟩ : ∃ k, fuel = k + 3 := ⟨fuel - 3, by omega⟩
  obtain ⟨hnext, hrp, htr⟩ := hs
  obtain ⟨tb, ip, mm, rp, tr, nx⟩ := s
  simp only at hnext hrp htr hv hb
  subst hnext hrp htr
  have hbyte : (UInt8.ofNat (payload.length + 1)).toNat = payload.length + 1 := by
    show (payload.length + 1) % 256 = payload.length + 1
    omega
  have hdisp : dispatch size_max alloc
      (deliver { tmpbuf := tb, in_progress := ip, maxmsgsize := mm, read_pos := Target.tmpbuf,
                 to_read := 1, next := Handler.one_byte_size_ready }
        [UInt8.ofNat (payload.length + 1)]) =
      some { rc := 0, err := none,
             dec := { tmpbuf := UInt8.ofNat (payload.length + 1) :: tb.drop 1
                      in_progress := { valid := true,
                                       data := some (List.replicate payload.length 0),
                                       flags := 0 }
                      maxmsgsize := mm
                      read_pos := Target.tmpbuf
                      to_read := 1
                      next := Handler.flags_ready } } := by
    have hget : (UInt8.ofNat (payload.length + 1) :: tb.drop 1).getD 0 0 =
        UInt8.ofNat (payload.length + 1) := rfl
    show one_byte_size_ready alloc
      { tmpbuf := UInt8.ofNat (payload.length + 1) :: tb.drop 1, in_progress := ip,
        maxmsgsize := mm, read_pos := Target.tmpbuf, to_read := 1,
        next := Handler.one_byte_size_ready } = _
    rw [one_byte_size_ready_accept alloc _ (by simp only [hget, hbyte]; omega)
      (by simp only [hget, hbyte]; omega)
      (by simp only [hget, hbyte]; push_cast; omega)]
    simp only [hget, hbyte, Nat.add_sub_cancel]
    rw [alloc_in_progress_ok alloc _ _ hv ha]
  have h1 := decode_continue size_max alloc (k + 2)
    { tmpbuf := tb, in_progress := ip, maxmsgsize := mm, read_pos := Target.tmpbuf,
      to_read := 1, next := Handler.one_byte_size_ready }
    (short_frame f payload ++ rest) _ (by simp [short_frame]) hdisp rfl
  rw [h1]
  have h2 := decode_flags_body size_max alloc
    { tmpbuf := UInt8.ofNat (payload.length + 1) :: tb.drop 1
      in_progress := { valid := true, data := some (List.replicate payload.length 0),
                       flags := 0 }
      maxmsgsize := mm
      read_pos := Target.tmpbuf
      to_read := 1
      next := Handler.flags_ready }
    f (List.replicate payload.length 0) payload rest (k + 2) ⟨rfl, rfl, rfl⟩ rfl
    (by simp) (by omega)
  simp only [short_frame, List.cons_append, List.drop_succ_cons, List.drop_zero]
  rw [h2]
  simp only [Option.map_some', List.drop_succ_cons, List.drop_zero]
  have harith : 1 + (payload.length + 1) = payload.length + 2 := by omega
  rw [harith]

theorem decode_long_frame (size_max : Nat) (alloc : Nat → Bool) (s : v1_decoder_t)
    (f : UInt8) (payload rest : List UInt8) (fuel : Nat)
    (hs : awaiting_short_size s) (hv : s.in_progress.valid = true)
    (hL : payload.length + 1 < 2 ^ 64) (hsz : payload.length ≤ size_max)
    (hmax : s.maxmsgsize < 2 ^ 63)
    (hb : s.maxmsgsize < 0 ∨ (payload.length : Int) ≤ s.maxmsgsize)
    (ha : alloc payload.length = true) (hfuel : 4 ≤ fuel) :
    decode size_max alloc fuel s (long_frame f payload ++ rest) =
      some ({ rc := 1, err := none,
              dec := { tmpbuf := f :: ((put_uint64 (payload.length + 1)).drop 1 ++
                                        s.tmpbuf.drop 8)
                       in_progress := { valid := true, data := some payload,
                                        flags := f &&& msg_t.more }
                       maxmsgsize := s.maxmsgsize
                       read_pos := Target.tmpbuf
                       to_read := 1
                       next := Handler.one_byte_size_ready } }, payload.length + 10) := by
  obtain ⟨k, rfl⟩ : ∃ k, fuel = k + 4 := ⟨fuel - 4, by omega⟩
  obtain ⟨hnext, hrp, htr⟩ := hs
  obtain ⟨tb, ip, mm, rp, tr, nx⟩ := s
  simp only at hnext hrp htr hv hb hmax
  subst hnext hrp htr
  have h1 := decode_continue size_max alloc (k + 3)
    { tmpbuf := tb, in_progress := ip, maxmsgsize := mm, read_pos := Target.tmpbuf,
      to_read := 1, next := Handler.one_byte_size_ready }
    (long_frame f payload ++ rest)
    { rc := 0, err := none,
      dec := { tmpbuf := 0xff :: tb.drop 1, in_progress := ip, maxmsgsize := mm,
               read_pos := Target.tmpbuf, to_read := 8,
               next := Handler.eight_byte_size_ready } }
    (by simp [long_frame])
    (one_byte_size_ready_long alloc
      { tmpbuf := 0xff :: tb.drop 1, in_progress := ip, maxmsgsize := mm,
        read_pos := Target.tmpbuf, to_read := 1, next := Handler.one_byte_size_ready } rfl)
    rfl
  rw [h1]
  have hget : get_uint64 (put_uint64 (payload.length + 1) ++ tb.drop 8) =
      payload.length + 1 := get_put_uint64 _ hL _
  have hdisp : dispatch size_max alloc
      (deliver { tmpbuf := 0xff :: tb.drop 1, in_progress := ip, maxmsgsize := mm,
                 read_pos := Target.tmpbuf, to_read := 8,
                 next := Handler.eight_byte_size_ready }
        (put_uint64 (payload.length + 1))) =
      some { rc := 0, err := none,
             dec := { tmpbuf := put_uint64 (payload.length + 1) ++ tb.drop 8
                      in_progress := { valid := true,
                                       data := some (List.replicate payload.length 0),
                                       flags := 0 }
                      maxmsgsize := mm
                      read_pos := Target.tmpbuf
                      to_read := 1
                      next := Handler.flags_ready } } := by
    have hdel : (deliver
        ({ tmpbuf := 0xff :: tb.drop 1, in_progress := ip, maxmsgsize := mm,
           read_pos := Target.tmpbuf, to_read := 8,
           next := Handler.eight_byte_size_ready } : v1_decoder_t)
        (put_uint64 (payload.length + 1))) =
        ({ tmpbuf := put_uint64 (payload.length + 1) ++ tb.drop 8, in_progress := ip,
           maxmsgsize := mm, read_pos := Target.tmpbuf, to_read := 8,
           next := Handler.eight_byte_size_ready } : v1_decoder_t) := by
      simp [deliver, put_uint64]
    rw [hdel]
    show eight_byte_size_ready size_max alloc _ = _
    rw [eight_byte_size_ready_accept size_max alloc _ (by simp only [hget]; omega)
      (by simp only [hget]; omega) hmax
      (by simp only [hget, Nat.add_sub_cancel]; exact hb)]
    simp only [hget, Nat.add_sub_cancel]
    rw [alloc_in_progress_ok alloc _ _ hv ha]
  have htake : (long_frame f payload ++ rest).drop 1 =
      put_uint64 (payload.length + 1) ++ (f :: (payload ++ rest)) := by
    simp [long_frame]
  have h2 := decode_continue size_max alloc (k + 2)
    { tmpbuf := 0xff :: tb.drop 1, in_progress := ip, maxmsgsize := mm,
      read_pos := Target.tmpbuf, to_read := 8, next := Handler.eight_byte_size_ready }
    (put_uint64 (payload.length + 1) ++ (f :: (payload ++ rest))) _
    (by simp [put_uint64])
    (by
      have : (put_uint64 (payload.length + 1) ++ (f :: (payload ++ rest))).take 8 =
          put_uint64 (payload.length + 1) := by simp [put_uint64]
      simp only [this]
      exact hdisp)
    rfl
  simp only [htake]
  rw [h2]
  have hdrop : (put_uint64 (payload.length + 1) ++ (f :: (payload ++ rest))).drop 8 =
      f :: (payload ++ rest) := by simp [put_uint64]
  simp only [hdrop]
  have h3 := decode_flags_body size_max alloc
    { tmpbuf := put_uint64 (payload.length + 1) ++ tb.drop 8
      in_progress := { valid := true, data := some (List.replicate payload.length 0),
                       flags := 0 }
      maxmsgsize := mm
      read_pos := Target.tmpbuf
      to_read := 1
      next := Handler.flags_ready }
    f (List.replicate payload.length 0) payload rest (k + 2) ⟨rfl, rfl, rfl⟩ rfl
    (by simp) (by omega)
  rw [h3]
  simp only [Option.map_some']
  have harith : 1 + (8 + (payload.length + 1)) = payload.length + 10 := by omega
  have htb : (put_uint64 (payload.length + 1) ++ tb.drop 8).drop 1 =
      (put_uint64 (payload.length + 1)).drop 1 ++ tb.drop 8 := by simp [put_uint64]
  rw [harith, htb]

theorem deliver_tmpbuf (s : v1_decoder_t) (bytes : List UInt8)
    (hrp : s.read_pos = Target.tmpbuf) :
    deliver s bytes = { s with tmpbuf := bytes ++ s.tmpbuf.drop bytes.length } := by
  unfold deliver
  rw [hrp]

theorem short_byte_toNat (n : Nat) (hn : n ≤ 253) : (UInt8.ofNat (n + 1)).toNat = n + 1 := by
  show (n + 1) % 256 = n + 1
  omega

theorem one_byte_size_ready_deliver_accept (alloc : Nat → Bool) (s : v1_decoder_t) (n : Nat)
    (hrp : s.read_pos = Target.tmpbuf) (hn : n ≤ 253)
    (hb : s.maxmsgsize < 0 ∨ (n : Int) ≤ s.maxmsgsize) :
    one_byte_size_ready alloc (deliver s [UInt8.ofNat (n + 1)]) =
      alloc_in_progress alloc (deliver s [UInt8.ofNat (n + 1)]) n := by
  have hbyte := short_byte_toNat n hn
  have hget : ((deliver s [UInt8.ofNat (n + 1)]).tmpbuf.getD 0 0).toNat = n + 1 := by
    rw [deliver_tmpbuf s _ hrp]
    exact hbyte
  have hmm : (deliver s [UInt8.ofNat (n + 1)]).maxmsgsize = s.maxmsgsize := by
    rw [deliver_tmpbuf s _ hrp]
  rw [one_byte_size_ready_accept alloc _ (by omega) (by omega) (by rw [hget, hmm]; omega), hget,
    Nat.add_sub_cancel]

theorem eight_byte_size_ready_deliver_accept (size_max : Nat) (alloc : Nat → Bool)
    (s : v1_decoder_t) (n : Nat) (hrp : s.read_pos = Target.tmpbuf)
    (hL : n + 1 < 2 ^ 64) (hsz : n ≤ size_max) (hmax : s.maxmsgsize < 2 ^ 63)
    (hb : s.maxmsgsize < 0 ∨ (n : Int) ≤ s.maxmsgsize) :
    eight_byte_size_ready size_max alloc (deliver s (put_uint64 (n + 1))) =
      alloc_in_progress alloc (deliver s (put_uint64 (n + 1))) n := by
  have hget : get_uint64 (deliver s (put_uint64 (n + 1))).tmpbuf = n + 1 := by
    rw [deliver_tmpbuf s _ hrp]
    exact get_put_uint64 _ hL _
  have hmm : (deliver s (put_uint64 (n + 1))).maxmsgsize = s.maxmsgsize := by
    rw [deliver_tmpbuf s _ hrp]
  rw [eight_byte_size_ready_accept size_max alloc _ (by omega) (by omega) (by rw [hmm]; exact hmax)
    (by rw [hget, hmm, Nat.add_sub_cancel]; exact hb), hget, Nat.add_sub_cancel]

theorem decode_well_formed (size_max : Nat) (alloc : Nat → Bool) (s : v1_decoder_t)
    (f : UInt8) (payload frame rest : List UInt8) (fuel : Nat)
    (hs : awaiting_short_size s) (hv : s.in_progress.valid = true)
    (hw : well_formed_frame size_max s.maxmsgsize alloc f payload frame) (hfuel : 4 ≤ fuel) :
    ∃ o : Outcome, decode size_max alloc fuel s (frame ++ rest) = some (o, frame.length) ∧
      o.rc = 1 ∧ o.err = none ∧
      o.dec.in_progress =
        { valid := true, data := some payload, flags := f &&& msg_t.more } ∧
      awaiting_short_size o.dec ∧ o.dec.maxmsgsize = s.maxmsgsize := by
  obtain ⟨hb, ha, hform⟩ := hw
  rcases hform with ⟨rfl, hP⟩ | ⟨rfl, hL, hsz, hmax⟩
  · have hlen : (short_frame f payload).length = payload.length + 2 := by simp [short_frame]
    rw [decode_short_frame size_max alloc s f payload rest fuel hs hv hP hb ha (by omega), hlen]
    exact ⟨_, rfl, rfl, rfl, rfl, ⟨rfl, rfl, rfl⟩, rfl⟩
  · have hlen : (long_frame f payload).length = payload.length + 10 := by
      simp [long_frame, put_uint64]
    rw [decode_long_frame size_max alloc s f payload rest fuel hs hv hL hsz hmax hb ha hfuel,
      hlen]
    exact ⟨_, rfl, rfl, rfl, rfl, ⟨rfl, rfl, rfl⟩, rfl⟩

theorem observe_decode_well_formed (size_max : Nat) (alloc : Nat → Bool) (s : v1_decoder_t)
    (f : UInt8) (payload frame rest : List UInt8) (fuel : Nat)
    (hs : awaiting_short_size s) (hv : s.in_progress.valid = true)
    (hw : well_formed_frame size_max s.maxmsgsize alloc f payload frame) (hfuel : 4 ≤ fuel) :
    observe (decode size_max alloc fuel s (frame ++ rest)) =
      some (1, none, { valid := true, data := some payload, flags := f &&& msg_t.more },
        frame.length) := by
  obtain ⟨o, hd, hrc, herr, hip, _, _⟩ :=
    decode_well_formed size_max alloc s f payload frame rest fuel hs hv hw hfuel
  rw [hd]
  simp [observe, hrc, herr, hip]

/-! ## Decoding one frame -/

theorem message_ready_deliver (s : v1_decoder_t) (d payload : List UInt8)
    (hrp : s.read_pos = Target.msg_data) (hdata : s.in_progress.data = some d)
    (hlen : d.length = payload.length) :
    message_ready (deliver s payload) =
      some { rc := 1, err := none,
             dec := { tmpbuf := s.tmpbuf
                      in_progress := { s.in_progress with data := some payload }
                      maxmsgsize := s.maxmsgsize
                      read_pos := Target.tmpbuf
                      to_read := 1
                      next := Handler.one_byte_size_ready } } := by
  simp [message_ready, deliver, hrp, hdata, next_step, ← hlen]

/-- C1: for every payload of `P ≤ 253` bytes and every flags byte `f`, on a
freshly constructed decoder whose bound is negative (unlimited) or at least `P`
and whose allocation of `P` bytes succeeds, the handlers
`one_byte_size_ready`, `flags_ready` and `message_ready`, invoked in turn on the
delivered bytes `[P+1]`, `[f]` and the payload, return 0, 0 and 1; the
completed message has size `P`, the fed payload, and its continuation flag is
set exactly when bit 0 of `f` is 1; the decoder is then the initial decoder
again (pending request of 1 byte into the scratch buffer for
`one_byte_size_ready`), except that the scratch buffer holds `f` and the
in-progress slot holds the completed message.  Driven by the engine, the frame
consumes exactly `P + 2` bytes whatever follows it, and no further message
comes without further input. -/
theorem C1_short_frame_decodes (bufsize : Nat) (maxmsgsize : Int) (size_max : Nat)
    (alloc : Nat → Bool) (f : UInt8) (payload : List UInt8)
    (hP : payload.length ≤ 253)
    (hb : maxmsgsize < 0 ∨ (payload.length : Int) ≤ maxmsgsize)
    (ha : alloc payload.length = true) :
    ∃ o1 o2 o3 : Outcome,
      one_byte_size_ready alloc
        (deliver (v1_decoder_t.new bufsize maxmsgsize) [UInt8.ofNat (payload.length + 1)]) =
          some o1 ∧
      o1.rc = 0 ∧ awaiting_flags o1.dec ∧
      flags_ready (deliver o1.dec [f]) = some o2 ∧
      o2.rc = 0 ∧ awaiting_body o2.dec ∧ o2.dec.to_read = payload.length ∧
      message_ready (deliver o2.dec payload) = some o3 ∧
      o3.rc = 1 ∧ o3.err = none ∧
      o3.dec.in_progress.size = payload.length ∧
      o3.dec.in_progress.payload = payload ∧
      (o3.dec.in_progress.has_more = true ↔ f.toNat % 2 = 1) ∧
      o3.dec = { v1_decoder_t.new bufsize maxmsgsize with
                   tmpbuf := f :: List.replicate 7 0
                   in_progress := { valid := true, data := some payload,
                                    flags := f &&& msg_t.more } } ∧
      awaiting_short_size o3.dec ∧
      (∀ (fuel : Nat) (rest : List UInt8), 3 ≤ fuel →
        decode size_max alloc fuel (v1_decoder_t.new bufsize maxmsgsize)
          (short_frame f payload ++ rest) = some (o3, payload.length + 2)) ∧
      (∀ fuel : Nat, 1 ≤ fuel →
        decode size_max alloc fuel o3.dec [] =
          some ({ rc := 0, err := none, dec := o3.dec }, 0)) := by
  have hv : (deliver (v1_decoder_t.new bufsize maxmsgsize)
      [UInt8.ofNat (payload.length + 1)]).in_progress.valid = true := rfl
  have e1 := one_byte_size_ready_deliver_accept alloc (v1_decoder_t.new bufsize maxmsgsize)
    payload.length rfl hP hb
  rw [alloc_in_progress_ok alloc _ _ hv ha] at e1
  refine ⟨_, _, _, e1, rfl, ⟨rfl, rfl, rfl⟩, flags_ready_deliver _ f rfl, rfl,
    ⟨rfl, rfl, rfl⟩, ?_,
    message_ready_deliver _ (List.replicate payload.length 0) payload rfl rfl (by simp),
    rfl, rfl, rfl, rfl, has_more_iff _ _ f, rfl, ⟨rfl, rfl, rfl⟩, ?_, ?_⟩
  · simp [msg_t.size]
  · intro fuel rest hfuel
    exact decode_short_frame size_max alloc (v1_decoder_t.new bufsize maxmsgsize) f payload
      rest fuel ⟨rfl, rfl, rfl⟩ rfl hP hb ha hfuel
  · intro fuel hfuel
    obtain ⟨k, rfl⟩ : ∃ k, fuel = k + 1 := ⟨fuel - 1, by omega⟩
    exact decode_suspend size_max alloc k _ [] Nat.zero_lt_one

/-- Witness of C1: the bytes `[0x04, 0x00, 0x41, 0x42, 0x43]` on a fresh
unlimited decoder give one message of size 3, final, payload `"ABC"`, after 5
bytes. -/
theorem C1_short_frame_decodes_witness :
    ([0x41, 0x42, 0x43] : List UInt8).length ≤ 253 ∧
    ((-1 : Int) < 0 ∨ ((([0x41, 0x42, 0x43] : List UInt8).length : Nat) : Int) ≤ -1) ∧
    (fun _ : Nat => true) ([0x41, 0x42, 0x43] : List UInt8).length = true ∧
    ∃ o3 : Outcome,
      decode (2 ^ 64 - 1) (fun _ => true) 3 (v1_decoder_t.new 8192 (-1))
        [0x04, 0x00, 0x41, 0x42, 0x43] = some (o3, 5) ∧
      o3.rc = 1 ∧ o3.dec.in_progress.size = 3 ∧
      o3.dec.in_progress.payload = [0x41, 0x42, 0x43] ∧
      o3.dec.in_progress.has_more = false ∧ awaiting_short_size o3.dec := by
  refine ⟨by decide, Or.inl (by decide), rfl, ?_⟩
  obtain ⟨_, _, o3, _, _, _, _, _, _, _, _, h_rc, _, h_size, h_payload, h_more, _, h_await,
      h_dec, _⟩ :=
    C1_short_frame_decodes 8192 (-1) (2 ^ 64 - 1) (fun _ => true) 0x00 [0x41, 0x42, 0x43]
      (by decide) (Or.inl (by decide)) rfl
  refine ⟨o3, h_dec 3 [] (by decide), h_rc, h_size, h_payload, ?_, h_await⟩
  exact Bool.eq_false_iff.mpr (fun h => absurd (h_more.mp h) (by decide))

/-- C2: for every payload of `P` bytes whose declared length `L = P + 1` fits
64 bits, with `P` within `size_t`, the bound negative (unlimited) or at least
`P`, and the allocation of `P` bytes succeeding, on a freshly constructed
decoder the handlers `one_byte_size_ready`, `eight_byte_size_ready`,
`flags_ready` and `message_ready`, invoked in turn on the delivered bytes
`[0xFF]`, the 8 big-endian bytes of `L`, `[f]` and the payload, return 0, 0, 0
and 1; the completed message has size `P = L - 1`, the fed payload, and its
continuation flag is set exactly when bit 0 of `f` is 1.  Driven by the
engine the frame consumes exactly `P + 10` bytes.  Nothing requires `L` to
exceed the short-form range. -/
theorem C2_long_frame_decodes (bufsize : Nat) (maxmsgsize : Int) (size_max : Nat)
    (alloc : Nat → Bool) (f : UInt8) (payload : List UInt8)
    (hL : payload.length + 1 < 2 ^ 64) (hsz : payload.length ≤ size_max)
    (hmax : maxmsgsize < 2 ^ 63)
    (hb : maxmsgsize < 0 ∨ (payload.length : Int) ≤ maxmsgsize)
    (ha : alloc payload.length = true) :
    ∃ o0 o1 o2 o3 : Outcome,
      one_byte_size_ready alloc (deliver (v1_decoder_t.new bufsize maxmsgsize) [0xff]) =
        some o0 ∧
      o0.rc = 0 ∧ awaiting_long_size o0.dec ∧
      get_uint64 (deliver o0.dec (put_uint64 (payload.length + 1))).tmpbuf =
        payload.length + 1 ∧
      eight_byte_size_ready size_max alloc
        (deliver o0.dec (put_uint64 (payload.length + 1))) = some o1 ∧
      o1.rc = 0 ∧ awaiting_flags o1.dec ∧
      flags_ready (deliver o1.dec [f]) = some o2 ∧
      o2.rc = 0 ∧ awaiting_body o2.dec ∧ o2.dec.to_read = payload.length ∧
      message_ready (deliver o2.dec payload) = some o3 ∧
      o3.rc = 1 ∧ o3.err = none ∧
      o3.dec.in_progress.size = payload.length ∧
      o3.dec.in_progress.payload = payload ∧
      (o3.dec.in_progress.has_more = true ↔ f.toNat % 2 = 1) ∧
      awaiting_short_size o3.dec ∧
      (∀ (fuel : Nat) (rest : List UInt8), 4 ≤ fuel →
        decode size_max alloc fuel (v1_decoder_t.new bufsize maxmsgsize)
          (long_frame f payload ++ rest) = some (o3, payload.length + 10)) ∧
      (∀ fuel : Nat, 1 ≤ fuel →
        decode size_max alloc fuel o3.dec [] =
          some ({ rc := 0, err := none, dec := o3.dec }, 0)) := by
  have e0 := one_byte_size_ready_long alloc
    (deliver (v1_decoder_t.new bufsize maxmsgsize) [0xff]) rfl
  have hv : (deliver (next_step (deliver (v1_decoder_t.new bufsize maxmsgsize) [0xff])
      Target.tmpbuf 8 Handler.eight_byte_size_ready)
      (put_uint64 (payload.length + 1))).in_progress.valid = true := rfl
  have e1 := eight_byte_size_ready_deliver_accept size_max alloc
    (next_step (deliver (v1_decoder_t.new bufsize maxmsgsize) [0xff])
      Target.tmpbuf 8 Handler.eight_byte_size_ready) payload.length rfl hL hsz hmax hb
  rw [alloc_in_progress_ok alloc _ _ hv ha] at e1
  refine ⟨_, _, _, _, e0, rfl, ⟨rfl, rfl, rfl⟩, get_put_uint64 _ hL _, e1, rfl,
    ⟨rfl, rfl, rfl⟩, flags_ready_deliver _ f rfl, rfl, ⟨rfl, rfl, rfl⟩, ?_,
    message_ready_deliver _ (List.replicate payload.length 0) payload rfl rfl (by simp),
    rfl, rfl, rfl, rfl, has_more_iff _ _ f, ⟨rfl, rfl, rfl⟩, ?_, ?_⟩
  · simp [msg_t.size]
  · intro fuel rest hfuel
    exact decode_long_frame size_max alloc (v1_decoder_t.new bufsize maxmsgsize) f payload
      rest fuel ⟨rfl, rfl, rfl⟩ rfl hL hsz hmax hb ha hfuel
  · intro fuel hfuel
    obtain ⟨k, rfl⟩ : ∃ k, fuel = k + 1 := ⟨fuel - 1, by omega⟩
    exact decode_suspend size_max alloc k _ [] Nat.zero_lt_one

/-- Witness of C2: the bytes `[0xFF, 0,0,0,0,0,0,0,0x02, 0x01, 0x58]` on a fresh
unlimited decoder give declared length 2, one message of size 1, continuation
set, payload `"X"`, after 11 bytes. -/
theorem C2_long_frame_decodes_witness :
    ([0x58] : List UInt8).length + 1 < 2 ^ 64 ∧
    ([0x58] : List UInt8).length ≤ 2 ^ 64 - 1 ∧
    ((-1 : Int) < 2 ^ 63) ∧
    ((-1 : Int) < 0 ∨ ((([0x58] : List UInt8).length : Nat) : Int) ≤ -1) ∧
    (fun _ : Nat => true) ([0x58] : List UInt8).length = true ∧
    get_uint64 [0, 0, 0, 0, 0, 0, 0, 0x02] = 2 ∧
    ∃ o3 : Outcome,
      decode (2 ^ 64 - 1) (fun _ => true) 4 (v1_decoder_t.new 8192 (-1))
        [0xff, 0, 0, 0, 0, 0, 0, 0, 0x02, 0x01, 0x58] = some (o3, 11) ∧
      o3.rc = 1 ∧ o3.dec.in_progress.size = 1 ∧
      o3.dec.in_progress.payload = [0x58] ∧
      o3.dec.in_progress.has_more = true ∧ awaiting_short_size o3.dec := by
  refine ⟨by decide, by decide, by decide, Or.inl (by decide), rfl, by decide, ?_⟩
  obtain ⟨_, _, _, o3, _, _, _, _, _, _, _, _, _, _, _, _, h_rc, _, h_size, h_payload, h_more,
      h_await, h_dec, _⟩ :=
    C2_long_frame_decodes 8192 (-1) (2 ^ 64 - 1) (fun _ => true) 0x01 [0x58]
      (by decide) (by decide) (by decide) (Or.inl (by decide)) rfl
  exact ⟨o3, h_dec 4 [] (by decide), h_rc, h_size, h_payload, h_more.mpr (by decide), h_await⟩

/-! ## After an allocation failure -/

theorem alloc_in_progress_cases (alloc : Nat → Bool) (s : v1_decoder_t) (n : Nat)
    (o : Outcome) (h : alloc_in_progress alloc s n = some o) :
    s.in_progress.valid = true ∧
    ((alloc n = true ∧
        o = { rc := 0, err := none,
              dec := { s with
                in_progress := { valid := true, data := some (List.replicate n 0), flags := 0 }
                read_pos := Target.tmpbuf, to_read := 1, next := Handler.flags_ready } }) ∨
     (alloc n = false ∧
        o = { rc := -1, err := some Errno.ENOMEM,
              dec := { s with in_progress := msg_t.empty } })) := by
  by_cases hv : s.in_progress.valid = true
  · refine ⟨hv, ?_⟩
    by_cases ha : alloc n = true
    · rw [alloc_in_progress_ok alloc s n hv ha] at h
      exact Or.inl ⟨ha, (Option.some.inj h).symm⟩
    · have ha2 : alloc n = false := by simpa using ha
      rw [alloc_in_progress_fail alloc s n hv ha2] at h
      exact Or.inr ⟨ha2, (Option.some.inj h).symm⟩
  · exfalso
    simp [alloc_in_progress, msg_t.close, hv] at h

theorem one_byte_size_ready_cases (alloc : Nat → Bool) (s : v1_decoder_t) (o : Outcome)
    (h : one_byte_size_ready alloc s = some o) :
    ((s.tmpbuf.getD 0 0).toNat = 0xff ∧
      o = { rc := 0, err := none,
            dec := next_step s Target.tmpbuf 8 Handler.eight_byte_size_ready }) ∨
    ((s.tmpbuf.getD 0 0).toNat = 0 ∧
      o = { rc := -1, err := some Errno.EPROTO, dec := s }) ∨
    ((s.tmpbuf.getD 0 0).toNat ≠ 0xff ∧ (s.tmpbuf.getD 0 0).toNat ≠ 0 ∧
      (s.maxmsgsize ≥ 0 ∧ ((s.tmpbuf.getD 0 0).toNat : Int) - 1 > s.maxmsgsize) ∧
      o = { rc := -1, err := some Errno.EMSGSIZE, dec := s }) ∨
    ((s.tmpbuf.getD 0 0).toNat ≠ 0xff ∧ (s.tmpbuf.getD 0 0).toNat ≠ 0 ∧
      ¬ (s.maxmsgsize ≥ 0 ∧ ((s.tmpbuf.getD 0 0).toNat : Int) - 1 > s.maxmsgsize) ∧
      alloc_in_progress alloc s ((s.tmpbuf.getD 0 0).toNat - 1) = some o) := by
  by_cases hff : (s.tmpbuf.getD 0 0).toNat = 0xff
  · rw [one_byte_size_ready_long alloc s hff] at h
    exact Or.inl ⟨hff, (Option.some.inj h).symm⟩
  · by_cases h0 : (s.tmpbuf.getD 0 0).toNat = 0
    · rw [one_byte_size_ready_zero alloc s h0] at h
      exact Or.inr (Or.inl ⟨h0, (Option.some.inj h).symm⟩)
    · by_cases hm : s.maxmsgsize ≥ 0 ∧ ((s.tmpbuf.getD 0 0).toNat : Int) - 1 > s.maxmsgsize
      · rw [one_byte_size_ready_too_large alloc s hff h0 hm] at h
        exact Or.inr (Or.inr (Or.inl ⟨hff, h0, hm, (Option.some.inj h).symm⟩))
      · rw [one_byte_size_ready_else alloc s hff h0 hm] at h
        exact Or.inr (Or.inr (Or.inr ⟨hff, h0, hm, h⟩))

theorem eight_byte_size_ready_cases (size_max : Nat) (alloc : Nat → Bool) (s : v1_decoder_t)
    (o : Outcome) (h : eight_byte_size_ready size_max alloc s = some o) :
    (get_uint64 s.tmpbuf = 0 ∧ o = { rc := -1, err := some Errno.EPROTO, dec := s }) ∨
    (get_uint64 s.tmpbuf ≠ 0 ∧
      ((s.maxmsgsize ≥ 0 ∧
          (get_uint64 s.tmpbuf + 2 ^ 64 - 1) % 2 ^ 64 > to_uint64 s.maxmsgsize) ∨
        (get_uint64 s.tmpbuf + 2 ^ 64 - 1) % 2 ^ 64 > size_max) ∧
      o = { rc := -1, err := some Errno.EMSGSIZE, dec := s }) ∨
    (get_uint64 s.tmpbuf ≠ 0 ∧
      ¬ (s.maxmsgsize ≥ 0 ∧
          (get_uint64 s.tmpbuf + 2 ^ 64 - 1) % 2 ^ 64 > to_uint64 s.maxmsgsize) ∧
      ¬ (get_uint64 s.tmpbuf + 2 ^ 64 - 1) % 2 ^ 64 > size_max ∧
      alloc_in_progress alloc s
        (((get_uint64 s.tmpbuf + 2 ^ 64 - 1) % 2 ^ 64) % (size_max + 1)) = some o) := by
  by_cases h0 : get_uint64 s.tmpbuf = 0
  · rw [eight_byte_size_ready_zero size_max alloc s h0] at h
    exact Or.inl ⟨h0, (Option.some.inj h).symm⟩
  · by_cases hm : s.maxmsgsize ≥ 0 ∧
        (get_uint64 s.tmpbuf + 2 ^ 64 - 1) % 2 ^ 64 > to_uint64 s.maxmsgsize
    · rw [eight_byte_size_ready_over_bound size_max alloc s h0 hm] at h
      exact Or.inr (Or.inl ⟨h0, Or.inl hm, (Option.some.inj h).symm⟩)
    · by_cases hsz : (get_uint64 s.tmpbuf + 2 ^ 64 - 1) % 2 ^ 64 > size_max
      · rw [eight_byte_size_ready_over_size_t size_max alloc s h0 hm hsz] at h
        exact Or.inr (Or.inl ⟨h0, Or.inr hsz, (Option.some.inj h).symm⟩)
      · rw [eight_byte_size_ready_else size_max alloc s h0 hm hsz] at h
        exact Or.inr (Or.inr ⟨h0, hm, hsz, h⟩)

/-- The four shapes of a size handler's result: the long-form transition, a
validation failure that leaves the decoder as it was, an accepted size, an
allocation failure. -/
theorem size_handler_cases (size_max : Nat) (alloc : Nat → Bool) (s : v1_decoder_t)
    (o : Outcome)
    (h : one_byte_size_ready alloc s = some o ∨
      eight_byte_size_ready size_max alloc s = some o) :
    (one_byte_size_ready alloc s = some o ∧ (s.tmpbuf.getD 0 0).toNat = 0xff ∧
      o = { rc := 0, err := none,
            dec := next_step s Target.tmpbuf 8 Handler.eight_byte_size_ready }) ∨
    (o.rc = -1 ∧ (o.err = some Errno.EPROTO ∨ o.err = some Errno.EMSGSIZE) ∧ o.dec = s) ∨
    (s.in_progress.valid = true ∧ ∃ n : Nat, alloc n = true ∧
      o = { rc := 0, err := none,
            dec := { s with
              in_progress := { valid := true, data := some (List.replicate n 0), flags := 0 }
              read_pos := Target.tmpbuf, to_read := 1, next := Handler.flags_ready } }) ∨
    (s.in_progress.valid = true ∧
      o = { rc := -1, err := some Errno.ENOMEM,
            dec := { s with in_progress := msg_t.empty } }) := by
  have tail : ∀ n : Nat, alloc_in_progress alloc s n = some o →
      (s.in_progress.valid = true ∧ ∃ n : Nat, alloc n = true ∧
        o = { rc := 0, err := none,
              dec := { s with
                in_progress := { valid := true, data := some (List.replicate n 0),
                                 flags := 0 }
                read_pos := Target.tmpbuf, to_read := 1, next := Handler.flags_ready } }) ∨
      (s.in_progress.valid = true ∧
        o = { rc := -1, err := some Errno.ENOMEM,
              dec := { s with in_progress := msg_t.empty } }) := by
    intro n hn
    obtain ⟨hv, hc⟩ := alloc_in_progress_cases alloc s n o hn
    rcases hc with ⟨ha, ho⟩ | ⟨_, ho⟩
    · exact Or.inl ⟨hv, n, ha, ho⟩
    · exact Or.inr ⟨hv, ho⟩
  rcases h with h | h
  · rcases one_byte_size_ready_cases alloc s o h with ⟨hff, ho⟩ | ⟨_, ho⟩ | ⟨_, _, _, ho⟩ |
      ⟨_, _, _, ht⟩
    · exact Or.inl ⟨h, hff, ho⟩
    · exact Or.inr (Or.inl (by rw [ho]; exact ⟨rfl, Or.inl rfl, rfl⟩))
    · exact Or.inr (Or.inl (by rw [ho]; exact ⟨rfl, Or.inr rfl, rfl⟩))
    · exact Or.inr (Or.inr (tail _ ht))
  · rcases eight_byte_size_ready_cases size_max alloc s o h with ⟨_, ho⟩ | ⟨_, _, ho⟩ |
      ⟨_, _, _, ht⟩
    · exact Or.inr (Or.inl (by rw [ho]; exact ⟨rfl, Or.inl rfl, rfl⟩))
    · exact Or.inr (Or.inl (by rw [ho]; exact ⟨rfl, Or.inr rfl, rfl⟩))
    · exact Or.inr (Or.inr (tail _ ht))

/-- C18: when `one_byte_size_ready` or `eight_byte_size_ready` returns `-1`
with `EPROTO` or `EMSGSIZE`, the decoder after the call is the decoder before
it: the in-progress message (validity, storage, flags) is neither released
nor reallocated, and the pending handler and request are not advanced. -/
theorem C18_validation_failure_leaves_decoder (size_max : Nat) (alloc : Nat → Bool)
    (s : v1_decoder_t) (o : Outcome)
    (h : one_byte_size_ready alloc s = some o ∨
      eight_byte_size_ready size_max alloc s = some o)
    (hrc : o.rc = -1) (herr : o.err = some Errno.EPROTO ∨ o.err = some Errno.EMSGSIZE) :
    o.dec = s ∧ o.dec.in_progress = s.in_progress ∧ o.dec.next = s.next ∧
      o.dec.read_pos = s.read_pos ∧ o.dec.to_read = s.to_read := by
  have hdec : o.dec = s := by
    rcases size_handler_cases size_max alloc s o h with ⟨_, _, ho⟩ | ⟨_, _, hd⟩ |
      ⟨_, n, _, ho⟩ | ⟨_, ho⟩
    · rw [ho] at hrc
      exact absurd hrc (by simp)
    · exact hd
    · rw [ho] at hrc
      exact absurd hrc (by simp)
    · rw [ho] at herr
      rcases herr with he | he
      · exact absurd he (by simp)
      · exact absurd he (by simp)
  rw [hdec]
  exact ⟨rfl, rfl, rfl, rfl, rfl⟩

/-- Witness of C18: the size byte 0 on a fresh decoder holding a bound of 2
fails with `EPROTO` and leaves the decoder as it was. -/
theorem C18_validation_failure_leaves_decoder_witness :
    (one_byte_size_ready (fun _ => true) (v1_decoder_t.new 8192 2) =
        some { rc := -1, err := some Errno.EPROTO, dec := v1_decoder_t.new 8192 2 } ∨
      eight_byte_size_ready (2 ^ 64 - 1) (fun _ => true) (v1_decoder_t.new 8192 2) =
        some { rc := -1, err := some Errno.EPROTO, dec := v1_decoder_t.new 8192 2 }) ∧
    ((-1 : Int) = -1) ∧
    (some Errno.EPROTO = some Errno.EPROTO ∨ some Errno.EPROTO = some Errno.EMSGSIZE) ∧
    (v1_decoder_t.new 8192 2).in_progress = msg_t.empty ∧
    awaiting_short_size (v1_decoder_t.new 8192 2) :=
  ⟨Or.inl (by decide), rfl, Or.inl rfl,
    (C18_validation_failure_leaves_decoder (2 ^ 64 - 1) (fun _ => true)
      (v1_decoder_t.new 8192 2)
      { rc := -1, err := some Errno.EPROTO, dec := v1_decoder_t.new 8192 2 }
      (Or.inl (by decide)) rfl (Or.inl rfl)).2.1,
    by decide⟩

/-! ## The in-progress message between allocation and completion -/

theorem deliver_body_size (s : v1_decoder_t) (body : List UInt8)
    (hrp : s.read_pos = Target.msg_data) (hlen : body.length = s.in_progress.size) :
    (deliver s body).in_progress.size = s.in_progress.size ∧
    (deliver s body).in_progress.valid = s.in_progress.valid ∧
    (deliver s body).in_progress.flags = s.in_progress.flags ∧
    (deliver s body).tmpbuf = s.tmpbuf ∧ (deliver s body).maxmsgsize = s.maxmsgsize ∧
    (deliver s body).next = s.next ∧ (deliver s body).read_pos = s.read_pos ∧
    (deliver s body).to_read = s.to_read := by
  obtain ⟨tb, ⟨v, dat, fl⟩, mm, rp, tr, nx⟩ := s
  simp only at hrp
  subst hrp
  cases dat with
  | none => exact ⟨rfl, rfl, rfl, rfl, rfl, rfl, rfl, rfl⟩
  | some d =>
    refine ⟨?_, rfl, rfl, rfl, rfl, rfl, rfl, rfl⟩
    simp only [msg_t.size] at hlen
    simp only [deliver, msg_t.size, Option.map_some', List.length_append, List.length_drop]
    omega

theorem flags_ready_frame (s1 : v1_decoder_t) (hs : awaiting_flags s1) (f : UInt8) :
    ∃ o2 : Outcome, flags_ready (deliver s1 [f]) = some o2 ∧ o2.rc = 0 ∧
      o2.dec.in_progress = { s1.in_progress with flags := f &&& msg_t.more } ∧
      o2.dec.in_progress.size = s1.in_progress.size ∧
      o2.dec.in_progress.data = s1.in_progress.data ∧
      o2.dec.in_progress.valid = s1.in_progress.valid ∧
      o2.dec.maxmsgsize = s1.maxmsgsize ∧
      o2.dec.tmpbuf = (deliver s1 [f]).tmpbuf ∧
      awaiting_body o2.dec ∧ o2.dec.to_read = s1.in_progress.size ∧
      ∀ body : List UInt8, body.length = s1.in_progress.size →
        (deliver o2.dec body).in_progress.size = s1.in_progress.size ∧
        ∃ o3 : Outcome, message_ready (deliver o2.dec body) = some o3 ∧
          o3.dec.in_progress = (deliver o2.dec body).in_progress ∧
          o3.dec.in_progress.size = s1.in_progress.size := by
  obtain ⟨_, hrp, _⟩ := hs
  refine ⟨_, flags_ready_deliver s1 f hrp, rfl, rfl, rfl, rfl, rfl, rfl, ?_, ⟨rfl, rfl, rfl⟩,
    rfl, ?_⟩
  · rw [deliver_tmpbuf s1 _ hrp]
    rfl
  · intro body hlen
    have hb := (deliver_body_size
      { tmpbuf := f :: s1.tmpbuf.drop 1
        in_progress := { s1.in_progress with flags := f &&& msg_t.more }
        maxmsgsize := s1.maxmsgsize
        read_pos := Target.msg_data
        to_read := s1.in_progress.size
        next := Handler.message_ready } body rfl hlen).1
    exact ⟨hb, _, rfl, rfl, hb⟩

/-- C16: when a size handler accepts a size (returns 0 with `flags_ready`
pending) it has allocated the in-progress message with exactly the payload
length `n` (`*tmpbuf - 1` in the short form, `L - 1` in the long form).  From
then on the size stays `n`: `flags_ready` changes only the message's flags and
the pending request (and the scratch byte it was given), leaving the message's
size, storage and validity and the bound unchanged; the byte count it requests
for the body is `n`; the delivery of the `n` body bytes and `message_ready`
keep the size `n`. -/
theorem C16_size_fixed_until_reinit (size_max : Nat) (alloc : Nat → Bool)
    (s : v1_decoder_t) (o1 : Outcome)
    (h : one_byte_size_ready alloc s = some o1 ∨
      eight_byte_size_ready size_max alloc s = some o1)
    (hrc : o1.rc = 0) (hfl : o1.dec.next = Handler.flags_ready) :
    ∃ n : Nat, o1.dec.in_progress.size = n ∧ awaiting_flags o1.dec ∧
      (one_byte_size_ready alloc s = some o1 → n = (s.tmpbuf.getD 0 0).toNat - 1) ∧
      (eight_byte_size_ready size_max alloc s = some o1 → n = get_uint64 s.tmpbuf - 1) ∧
      ∀ f : UInt8, ∃ o2 : Outcome, flags_ready (deliver o1.dec [f]) = some o2 ∧ o2.rc = 0 ∧
        o2.dec.in_progress = { o1.dec.in_progress with flags := f &&& msg_t.more } ∧
        o2.dec.in_progress.size = n ∧
        o2.dec.in_progress.data = o1.dec.in_progress.data ∧
        o2.dec.in_progress.valid = o1.dec.in_progress.valid ∧
        o2.dec.maxmsgsize = o1.dec.maxmsgsize ∧
        o2.dec.tmpbuf = (deliver o1.dec [f]).tmpbuf ∧
        awaiting_body o2.dec ∧ o2.dec.to_read = n ∧
        ∀ body : List UInt8, body.length = n →
          (deliver o2.dec body).in_progress.size = n ∧
          ∃ o3 : Outcome, message_ready (deliver o2.dec body) = some o3 ∧
            o3.dec.in_progress = (deliver o2.dec body).in_progress ∧
            o3.dec.in_progress.size = n := by
  have accepted : ∀ n : Nat, alloc_in_progress alloc s n = some o1 →
      o1.dec.in_progress.size = n ∧ awaiting_flags o1.dec := by
    intro n hn
    obtain ⟨_, hc⟩ := alloc_in_progress_cases alloc s n o1 hn
    rcases hc with ⟨_, ho⟩ | ⟨_, ho⟩
    · rw [ho]
      exact ⟨by simp [msg_t.size], rfl, rfl, rfl⟩
    · rw [ho] at hrc
      exact absurd hrc (by simp)
  have short : one_byte_size_ready alloc s = some o1 →
      o1.dec.in_progress.size = (s.tmpbuf.getD 0 0).toNat - 1 ∧ awaiting_flags o1.dec := by
    intro h1
    rcases one_byte_size_ready_cases alloc s o1 h1 with ⟨_, ho⟩ | ⟨_, ho⟩ | ⟨_, _, _, ho⟩ |
      ⟨_, _, _, ht⟩
    · rw [ho] at hfl
      exact absurd hfl (by simp [next_step])
    · rw [ho] at hrc
      exact absurd hrc (by simp)
    · rw [ho] at hrc
      exact absurd hrc (by simp)
    · exact accepted _ ht
  have long : eight_byte_size_ready size_max alloc s = some o1 →
      o1.dec.in_progress.size = get_uint64 s.tmpbuf - 1 ∧ awaiting_flags o1.dec := by
    intro h1
    rcases eight_byte_size_ready_cases size_max alloc s o1 h1 with ⟨_, ho⟩ | ⟨_, _, ho⟩ |
      ⟨h0, _, hsz, ht⟩
    · rw [ho] at hrc
      exact absurd hrc (by simp)
    · rw [ho] at hrc
      exact absurd hrc (by simp)
    · have hlt := get_uint64_lt s.tmpbuf
      have hn : ((get_uint64 s.tmpbuf + 2 ^ 64 - 1) % 2 ^ 64) % (size_max + 1) =
          get_uint64 s.tmpbuf - 1 := by
        have hwrap : (get_uint64 s.tmpbuf + 2 ^ 64 - 1) % 2 ^ 64 =
            get_uint64 s.tmpbuf - 1 := by omega
        rw [hwrap] at hsz ⊢
        exact Nat.mod_eq_of_lt (by omega)
      rw [hn] at ht
      exact accepted _ ht
  have hsize : awaiting_flags o1.dec := by
    rcases h with h | h
    · exact (short h).2
    · exact (long h).2
  refine ⟨o1.dec.in_progress.size, rfl, hsize, fun h1 => (short h1).1, fun h1 => (long h1).1,
    ?_⟩
  intro f
  exact flags_ready_frame o1.dec hsize f

/-- Witness of C16: the size byte 4 accepted on a fresh unlimited decoder. -/
theorem C16_size_fixed_until_reinit_witness :
    (one_byte_size_ready (fun _ => true) (deliver (v1_decoder_t.new 8192 (-1)) [4]) =
        some { rc := 0, err := none,
               dec := { deliver (v1_decoder_t.new 8192 (-1)) [4] with
                 in_progress := { valid := true, data := some [0, 0, 0], flags := 0 }
                 next := Handler.flags_ready } } ∨
      eight_byte_size_ready (2 ^ 64 - 1) (fun _ => true)
          (deliver (v1_decoder_t.new 8192 (-1)) [4]) =
        some { rc := 0, err := none,
               dec := { deliver (v1_decoder_t.new 8192 (-1)) [4] with
                 in_progress := { valid := true, data := some [0, 0, 0], flags := 0 }
                 next := Handler.flags_ready } }) ∧
    ∃ n : Nat, n = 3 ∧
      ∀ f : UInt8, ∃ o2 : Outcome,
        flags_ready (deliver { deliver (v1_decoder_t.new 8192 (-1)) [4] with
            in_progress := { valid := true, data := some [0, 0, 0], flags := 0 }
            next := Handler.flags_ready } [f]) = some o2 ∧
        o2.dec.in_progress.size = n ∧ o2.dec.to_read = n := by
  refine ⟨Or.inl (by decide), ?_⟩
  obtain ⟨n, hn, _, _, _, hf⟩ :=
    C16_size_fixed_until_reinit (2 ^ 64 - 1) (fun _ => true)
      (deliver (v1_decoder_t.new 8192 (-1)) [4])
      { rc := 0, err := none,
        dec := { deliver (v1_decoder_t.new 8192 (-1)) [4] with
          in_progress := { valid := true, data := some [0, 0, 0], flags := 0 }
          next := Handler.flags_ready } }
      (Or.inl (by decide)) rfl rfl
  refine ⟨n, hn.symm, ?_⟩
  intro f
  obtain ⟨o2, h1, _, _, h4, _, _, _, _, _, h10, _⟩ := hf f
  exact ⟨o2, h1, h4, h10⟩

/-! ## Long form of a short length -/

/-- C19: for every declared length `d = n + 1` in `1..254`, every bound (in
the signed 64-bit range) and every allocation outcome, on a decoder awaiting
the short size (with `size_t` holding at least `n`), the long-form prefix
`[0xFF, d in 8 big-endian bytes]` ends like the short-form prefix `[d]`: the
same return code, the same `errno` (`EMSGSIZE` exactly when the bound is
exceeded, or `ENOMEM`) and the same in-progress message; on success both leave
a message of size `d - 1` with the decoder awaiting the flags byte (1 byte into
the scratch buffer).  The long-form encoding of a short length is not
rejected. -/
theorem C19_long_form_of_short_length (size_max : Nat) (alloc : Nat → Bool)
    (s : v1_decoder_t) (n : Nat)
    (hs : awaiting_short_size s) (hv : s.in_progress.valid = true)
    (hn : n ≤ 253) (hsz : n ≤ size_max) (hmax : s.maxmsgsize < 2 ^ 63) :
    ∃ o_s o0 o_l : Outcome,
      one_byte_size_ready alloc (deliver s [UInt8.ofNat (n + 1)]) = some o_s ∧
      one_byte_size_ready alloc (deliver s [0xff]) = some o0 ∧
      o0.rc = 0 ∧ awaiting_long_size o0.dec ∧
      eight_byte_size_ready size_max alloc (deliver o0.dec (put_uint64 (n + 1))) =
        some o_l ∧
      o_s.rc = o_l.rc ∧ o_s.err = o_l.err ∧ o_s.dec.in_progress = o_l.dec.in_progress ∧
      (o_s.rc = 0 ∨
        (o_s.rc = -1 ∧ (o_s.err = some Errno.EMSGSIZE ∨ o_s.err = some Errno.ENOMEM))) ∧
      (o_s.rc = 0 →
        awaiting_flags o_s.dec ∧ awaiting_flags o_l.dec ∧ o_s.dec.in_progress.size = n) ∧
      (o_s.err = some Errno.EMSGSIZE ↔ 0 ≤ s.maxmsgsize ∧ s.maxmsgsize < (n : Int)) := by
  obtain ⟨hnext, hrp, htr⟩ := hs
  obtain ⟨tb, ip, mm, rp, tr, nx⟩ := s
  simp only at hnext hrp htr hv hmax
  subst hnext hrp htr
  have hL : n + 1 < 2 ^ 64 := by
    have : (2 : Nat) ^ 64 = 18446744073709551616 := by norm_num
    omega
  have e0 := one_byte_size_ready_long alloc
    (deliver { tmpbuf := tb, in_progress := ip, maxmsgsize := mm, read_pos := Target.tmpbuf,
               to_read := 1, next := Handler.one_byte_size_ready } [0xff]) rfl
  have hbyte := short_byte_toNat n hn
  have hget : get_uint64 (put_uint64 (n + 1) ++ (0xff :: tb.drop 1).drop 8) = n + 1 :=
    get_put_uint64 _ hL _
  by_cases hm : mm ≥ 0 ∧ (n : Int) > mm
  · have es := one_byte_size_ready_too_large alloc
      { tmpbuf := UInt8.ofNat (n + 1) :: tb.drop 1, in_progress := ip, maxmsgsize := mm,
        read_pos := Target.tmpbuf, to_read := 1, next := Handler.one_byte_size_ready }
      (by show (UInt8.ofNat (n + 1)).toNat ≠ 0xff; omega)
      (by show (UInt8.ofNat (n + 1)).toNat ≠ 0; omega)
      (by
        show mm ≥ 0 ∧ (((UInt8.ofNat (n + 1)).toNat : Nat) : Int) - 1 > mm
        rw [hbyte]
        push_cast
        omega)
    have el := eight_byte_size_ready_over_bound size_max alloc
      { tmpbuf := put_uint64 (n + 1) ++ (0xff :: tb.drop 1).drop 8, in_progress := ip,
        maxmsgsize := mm, read_pos := Target.tmpbuf, to_read := 8,
        next := Handler.eight_byte_size_ready }
      (by show get_uint64 (put_uint64 (n + 1) ++ (0xff :: tb.drop 1).drop 8) ≠ 0; omega)
      (by
        show mm ≥ 0 ∧ (get_uint64 (put_uint64 (n + 1) ++ (0xff :: tb.drop 1).drop 8)
          + 2 ^ 64 - 1) % 2 ^ 64 > to_uint64 mm
        have hc := to_uint64_of_nonneg mm hm.1 hmax
        rw [hget]
        refine ⟨hm.1, ?_⟩
        omega)
    refine ⟨_, _, _, es, e0, rfl, ⟨rfl, rfl, rfl⟩, el, rfl, rfl, rfl,
      Or.inr ⟨rfl, Or.inl rfl⟩, ?_, ?_⟩
    · intro hc
      exact absurd hc (by simp)
    · exact ⟨fun _ => ⟨hm.1, hm.2⟩, fun _ => rfl⟩
  · have hb : mm < 0 ∨ (n : Int) ≤ mm := by omega
    have es := one_byte_size_ready_deliver_accept alloc
      { tmpbuf := tb, in_progress := ip, maxmsgsize := mm, read_pos := Target.tmpbuf,
        to_read := 1, next := Handler.one_byte_size_ready } n rfl hn hb
    have el := eight_byte_size_ready_deliver_accept size_max alloc
      { tmpbuf := 0xff :: tb.drop 1, in_progress := ip, maxmsgsize := mm,
        read_pos := Target.tmpbuf, to_read := 8, next := Handler.eight_byte_size_ready }
      n rfl hL hsz hmax hb
    by_cases ha : alloc n = true
    · rw [alloc_in_progress_ok alloc _ _ hv ha] at es el
      refine ⟨_, _, _, es, e0, rfl, ⟨rfl, rfl, rfl⟩, el, rfl, rfl, rfl, Or.inl rfl, ?_, ?_⟩
      · intro _
        exact ⟨⟨rfl, rfl, rfl⟩, ⟨rfl, rfl, rfl⟩, by simp [msg_t.size]⟩
      · constructor
        · intro hc
          exact absurd hc (by simp)
        · intro hc
          exact absurd ⟨hc.1, hc.2⟩ hm
    · have ha2 : alloc n = false := by simpa using ha
      rw [alloc_in_progress_fail alloc _ _ hv ha2] at es el
      refine ⟨_, _, _, es, e0, rfl, ⟨rfl, rfl, rfl⟩, el, rfl, rfl, rfl,
        Or.inr ⟨rfl, Or.inr rfl⟩, ?_, ?_⟩
      · intro hc
        exact absurd hc (by simp)
      · constructor
        · intro hc
          exact absurd hc (by simp)
        · intro hc
          exact absurd ⟨hc.1, hc.2⟩ hm

/-- Witness of C19: declared length 2 on a fresh decoder with bound 0 is
rejected as too large in both forms. -/
theorem C19_long_form_of_short_length_witness :
    awaiting_short_size (v1_decoder_t.new 8192 0) ∧
    (v1_decoder_t.new 8192 0).in_progress.valid = true ∧
    (1 ≤ 253) ∧ (1 ≤ 2 ^ 64 - 1) ∧ ((v1_decoder_t.new 8192 0).maxmsgsize < 2 ^ 63) ∧
    ∃ o_s o0 o_l : Outcome,
      one_byte_size_ready (fun _ => true)
        (deliver (v1_decoder_t.new 8192 0) [UInt8.ofNat (1 + 1)]) = some o_s ∧
      one_byte_size_ready (fun _ => true) (deliver (v1_decoder_t.new 8192 0) [0xff]) =
        some o0 ∧
      eight_byte_size_ready (2 ^ 64 - 1) (fun _ => true)
        (deliver o0.dec (put_uint64 (1 + 1))) = some o_l ∧
      o_s.err = o_l.err ∧ o_s.err = some Errno.EMSGSIZE := by
  refine ⟨by decide, rfl, by decide, by decide, by decide, ?_⟩
  obtain ⟨o_s, o0, o_l, h1, h2, _, _, h5, _, h7, _, _, _, h11⟩ :=
    C19_long_form_of_short_length (2 ^ 64 - 1) (fun _ => true) (v1_decoder_t.new 8192 0) 1
      (by decide) rfl (by decide) (by decide) (by decide)
  exact ⟨o_s, o0, o_l, h1, h2, h5, h7, h11.mpr (by decide)⟩

/-! ## The state machine -/

theorem uint8_eq_ff_iff (b : UInt8) : b = 0xff ↔ b.toNat = 0xff := by
  constructor
  · intro h; rw [h]; rfl
  · intro h; exact UInt8.ext_iff.mpr h

/-- One handler invocation from a decoder in one of the four states, with
exactly the requested bytes delivered: either the handler fails and the
pending request stays as it was, or the decoder moves along one of the edges
of the state machine.  The scratch buffer keeps its 8 bytes, the bound is
unchanged and the in-progress message stays initialised. -/
theorem step_cases (size_max : Nat) (alloc : Nat → Bool) (s : v1_decoder_t)
    (bytes : List UInt8) (o : Outcome)
    (hlen8 : s.tmpbuf.length = 8)
    (hst : awaiting_short_size s ∨ awaiting_long_size s ∨ awaiting_flags s ∨ awaiting_body s)
    (hbytes : bytes.length = s.to_read)
    (hd : dispatch size_max alloc (deliver s bytes) = some o) :
    ((o.rc = -1 ∧ (awaiting_short_size s ∨ awaiting_long_size s) ∧ o.dec.next = s.next ∧
        o.dec.read_pos = s.read_pos ∧ o.dec.to_read = s.to_read) ∨
      (awaiting_short_size s ∧ bytes = [0xff] ∧ o.rc = 0 ∧ awaiting_long_size o.dec ∧
        o.dec.in_progress = s.in_progress) ∨
      (awaiting_short_size s ∧ bytes ≠ [0xff] ∧ o.rc = 0 ∧ awaiting_flags o.dec) ∨
      (awaiting_long_size s ∧ o.rc = 0 ∧ awaiting_flags o.dec) ∨
      (awaiting_flags s ∧ o.rc = 0 ∧ awaiting_body o.dec ∧
        o.dec.in_progress.size = s.in_progress.size) ∨
      (awaiting_body s ∧ o.rc = 1 ∧ awaiting_short_size o.dec ∧
        o.dec.in_progress.size = s.in_progress.size)) ∧
    o.dec.tmpbuf.length = 8 ∧ o.dec.maxmsgsize = s.maxmsgsize ∧
    (s.in_progress.valid = true → o.dec.in_progress.valid = true) := by
  obtain ⟨tb, ip, mm, rp, tr, nx⟩ := s
  simp only at hlen8 hbytes
  rcases hst with ⟨hnext, hrp, htr⟩ | ⟨hnext, hrp, htr⟩ | ⟨hnext, hrp, htr⟩ | ⟨hnext, hrp, htr⟩
  · simp only at hnext hrp htr
    subst hnext hrp htr
    obtain ⟨b, rfl⟩ := List.length_eq_one.mp hbytes
    have hl : (b :: tb.drop 1).length = 8 := by
      simp only [List.length_cons, List.length_drop]; omega
    have hd2 : one_byte_size_ready alloc
        { tmpbuf := b :: tb.drop 1, in_progress := ip, maxmsgsize := mm,
          read_pos := Target.tmpbuf, to_read := 1, next := Handler.one_byte_size_ready } =
        some o := hd
    rcases one_byte_size_ready_cases alloc _ o hd2 with ⟨hff, ho⟩ | ⟨_, ho⟩ | ⟨_, _, _, ho⟩ |
      ⟨hff, _, _, ht⟩
    · have hb : b = 0xff := (uint8_eq_ff_iff b).mpr hff
      rw [ho]
      exact ⟨Or.inr (Or.inl ⟨⟨rfl, rfl, rfl⟩, by rw [hb], rfl, ⟨rfl, rfl, rfl⟩, rfl⟩), hl, rfl,
        fun h => h⟩
    · rw [ho]
      exact ⟨Or.inl ⟨rfl, Or.inl ⟨rfl, rfl, rfl⟩, rfl, rfl, rfl⟩, hl, rfl, fun h => h⟩
    · rw [ho]
      exact ⟨Or.inl ⟨rfl, Or.inl ⟨rfl, rfl, rfl⟩, rfl, rfl, rfl⟩, hl, rfl, fun h => h⟩
    · have hb : [b] ≠ [0xff] := by
        intro hc
        exact hff ((uint8_eq_ff_iff b).mp (List.cons.inj hc).1)
      obtain ⟨_, hc⟩ := alloc_in_progress_cases alloc _ _ o ht
      rcases hc with ⟨_, ho⟩ | ⟨_, ho⟩
      · rw [ho]
        exact ⟨Or.inr (Or.inr (Or.inl ⟨⟨rfl, rfl, rfl⟩, hb, rfl, ⟨rfl, rfl, rfl⟩⟩)), hl, rfl,
          fun _ => rfl⟩
      · rw [ho]
        exact ⟨Or.inl ⟨rfl, Or.inl ⟨rfl, rfl, rfl⟩, rfl, rfl, rfl⟩, hl, rfl, fun _ => rfl⟩
  · simp only at hnext hrp htr
    subst hnext hrp htr
    have hl : (bytes ++ tb.drop bytes.length).length = 8 := by
      simp only [List.length_append, List.length_drop]; omega
    have hd2 : eight_byte_size_ready size_max alloc
        { tmpbuf := bytes ++ tb.drop bytes.length, in_progress := ip, maxmsgsize := mm,
          read_pos := Target.tmpbuf, to_read := 8, next := Handler.eight_byte_size_ready } =
        some o := hd
    rcases eight_byte_size_ready_cases size_max alloc _ o hd2 with ⟨_, ho⟩ | ⟨_, _, ho⟩ |
      ⟨_, _, _, ht⟩
    · rw [ho]
      exact ⟨Or.inl ⟨rfl, Or.inr ⟨rfl, rfl, rfl⟩, rfl, rfl, rfl⟩, hl, rfl, fun h => h⟩
    · rw [ho]
      exact ⟨Or.inl ⟨rfl, Or.inr ⟨rfl, rfl, rfl⟩, rfl, rfl, rfl⟩, hl, rfl, fun h => h⟩
    · obtain ⟨_, hc⟩ := alloc_in_progress_cases alloc _ _ o ht
      rcases hc with ⟨_, ho⟩ | ⟨_, ho⟩
      · rw [ho]
        exact ⟨Or.inr (Or.inr (Or.inr (Or.inl ⟨⟨rfl, rfl, rfl⟩, rfl, ⟨rfl, rfl, rfl⟩⟩))), hl,
          rfl, fun _ => rfl⟩
      · rw [ho]
        exact ⟨Or.inl ⟨rfl, Or.inr ⟨rfl, rfl, rfl⟩, rfl, rfl, rfl⟩, hl, rfl, fun _ => rfl⟩
  · simp only at hnext hrp htr
    subst hnext hrp htr
    obtain ⟨b, rfl⟩ := List.length_eq_one.mp hbytes
    have hl : (b :: tb.drop 1).length = 8 := by
      simp only [List.length_cons, List.length_drop]; omega
    have ho : o = _ := (Option.some.inj hd).symm
    rw [ho]
    exact ⟨Or.inr (Or.inr (Or.inr (Or.inr (Or.inl
      ⟨⟨rfl, rfl, rfl⟩, rfl, ⟨rfl, rfl, rfl⟩, rfl⟩)))), hl, rfl, fun h => h⟩
  · simp only at hnext hrp htr
    subst hnext hrp
    have hb := deliver_body_size
      { tmpbuf := tb, in_progress := ip, maxmsgsize := mm, read_pos := Target.msg_data,
        to_read := tr, next := Handler.message_ready } bytes rfl (by rw [hbytes, htr])
    have hd2 : message_ready (deliver
        { tmpbuf := tb, in_progress := ip, maxmsgsize := mm, read_pos := Target.msg_data,
          to_read := tr, next := Handler.message_ready } bytes) = some o := by
      have hnx := hb.2.2.2.2.2.1
      unfold dispatch at hd
      rw [hnx] at hd
      exact hd
    have ho : o = _ := (Option.some.inj hd2).symm
    rw [ho]
    refine ⟨Or.inr (Or.inr (Or.inr (Or.inr (Or.inr
      ⟨⟨rfl, rfl, htr⟩, rfl, ⟨rfl, rfl, rfl⟩, hb.1⟩)))), ?_, hb.2.2.2.2.1, ?_⟩
    · show (deliver _ bytes).tmpbuf.length = 8
      rw [hb.2.2.2.1]
      exact hlen8
    · intro h
      show (deliver _ bytes).in_progress.valid = true
      rw [hb.2.1]
      exact h

/-- Every reachable decoder has its 8-byte scratch buffer, an initialised
in-progress message, the bound it was constructed with, and is in one of the
four states of the state machine. -/
theorem reachable_invariant (size_max bufsize : Nat) (maxmsgsize : Int) (s : v1_decoder_t)
    (hr : reachable size_max bufsize maxmsgsize s) :
    s.tmpbuf.length = 8 ∧ s.in_progress.valid = true ∧ s.maxmsgsize = maxmsgsize ∧
    (awaiting_short_size s ∨ awaiting_long_size s ∨ awaiting_flags s ∨ awaiting_body s) := by
  induction hr with
  | init => exact ⟨rfl, rfl, rfl, Or.inl ⟨rfl, rfl, rfl⟩⟩
  | step s alloc bytes o _ hbytes hd ih =>
    obtain ⟨hl, hv, hm, hst⟩ := ih
    obtain ⟨hedge, hl2, hm2, hv2⟩ := step_cases size_max alloc s bytes o hl hst hbytes hd
    refine ⟨hl2, hv2 hv, hm2.trans hm, ?_⟩
    rcases hedge with ⟨_, hs, h1, h2, h3⟩ | ⟨_, _, _, h, _⟩ | ⟨_, _, _, h⟩ | ⟨_, _, h⟩ |
      ⟨_, _, h, _⟩ | ⟨_, _, h, _⟩
    · rcases hs with ⟨a, b, c⟩ | ⟨a, b, c⟩
      · exact Or.inl ⟨h1.trans a, h2.trans b, h3.trans c⟩
      · exact Or.inr (Or.inl ⟨h1.trans a, h2.trans b, h3.trans c⟩)
    · exact Or.inr (Or.inl h)
    · exact Or.inr (Or.inr (Or.inl h))
    · exact Or.inr (Or.inr (Or.inl h))
    · exact Or.inr (Or.inr (Or.inr h))
    · exact Or.inl h

/-- C14: the decoder starts in AwaitShortSize with an empty in-progress
message, every reachable decoder is in one of the four states, and one handler
invocation on exactly the requested bytes either fails (return `-1`, only in
the two size states, pending request as it was) or follows one of the edges:
AwaitShortSize on the byte `0xFF` to AwaitLongSize (8 bytes into the scratch
buffer, in-progress message untouched, whatever the bound); AwaitShortSize on
an accepted size, or AwaitLongSize on an accepted size, to AwaitFlags (1 byte
into the scratch buffer); AwaitFlags to AwaitBody (the in-progress message's
size, into the message's own storage); AwaitBody to AwaitShortSize (1 byte
into the scratch buffer), the only edge that returns 1.  The last three parts
say that the `0xFF`, flags and body edges are always taken. -/
theorem C14_state_machine_edges (size_max bufsize : Nat) (maxmsgsize : Int) :
    (awaiting_short_size (v1_decoder_t.new bufsize maxmsgsize) ∧
      (v1_decoder_t.new bufsize maxmsgsize).in_progress = msg_t.empty) ∧
    (∀ s : v1_decoder_t, reachable size_max bufsize maxmsgsize s →
      awaiting_short_size s ∨ awaiting_long_size s ∨ awaiting_flags s ∨ awaiting_body s) ∧
    (∀ (s : v1_decoder_t) (alloc : Nat → Bool) (bytes : List UInt8) (o : Outcome),
      reachable size_max bufsize maxmsgsize s → bytes.length = s.to_read →
      dispatch size_max alloc (deliver s bytes) = some o →
      (o.rc = -1 ∧ (awaiting_short_size s ∨ awaiting_long_size s) ∧ o.dec.next = s.next ∧
          o.dec.read_pos = s.read_pos ∧ o.dec.to_read = s.to_read) ∨
        (awaiting_short_size s ∧ bytes = [0xff] ∧ o.rc = 0 ∧ awaiting_long_size o.dec ∧
          o.dec.in_progress = s.in_progress) ∨
        (awaiting_short_size s ∧ bytes ≠ [0xff] ∧ o.rc = 0 ∧ awaiting_flags o.dec) ∨
        (awaiting_long_size s ∧ o.rc = 0 ∧ awaiting_flags o.dec) ∨
        (awaiting_flags s ∧ o.rc = 0 ∧ awaiting_body o.dec ∧
          o.dec.in_progress.size = s.in_progress.size) ∨
        (awaiting_body s ∧ o.rc = 1 ∧ awaiting_short_size o.dec ∧
          o.dec.in_progress.size = s.in_progress.size)) ∧
    (∀ (s : v1_decoder_t) (alloc : Nat → Bool), awaiting_short_size s →
      ∃ o : Outcome, dispatch size_max alloc (deliver s [0xff]) = some o ∧ o.rc = 0 ∧
        awaiting_long_size o.dec ∧ o.dec.in_progress = s.in_progress) ∧
    (∀ (s : v1_decoder_t) (alloc : Nat → Bool) (f : UInt8), awaiting_flags s →
      ∃ o : Outcome, dispatch size_max alloc (deliver s [f]) = some o ∧ o.rc = 0 ∧
        awaiting_body o.dec ∧ o.dec.read_pos = Target.msg_data ∧
        o.dec.to_read = o.dec.in_progress.size) ∧
    (∀ (s : v1_decoder_t) (alloc : Nat → Bool) (body : List UInt8), awaiting_body s →
      body.length = s.to_read →
      ∃ o : Outcome, dispatch size_max alloc (deliver s body) = some o ∧ o.rc = 1 ∧
        awaiting_short_size o.dec) := by
  refine ⟨⟨⟨rfl, rfl, rfl⟩, rfl⟩, ?_, ?_, ?_, ?_, ?_⟩
  · intro s hr
    exact (reachable_invariant size_max bufsize maxmsgsize s hr).2.2.2
  · intro s alloc bytes o hr hbytes hd
    obtain ⟨hl, _, _, hst⟩ := reachable_invariant size_max bufsize maxmsgsize s hr
    exact (step_cases size_max alloc s bytes o hl hst hbytes hd).1
  · intro s alloc hs
    obtain ⟨hnext, hrp, htr⟩ := hs
    obtain ⟨tb, ip, mm, rp, tr, nx⟩ := s
    simp only at hnext hrp htr
    subst hnext hrp htr
    exact ⟨_, one_byte_size_ready_long alloc
      { tmpbuf := 0xff :: tb.drop 1, in_progress := ip, maxmsgsize := mm,
        read_pos := Target.tmpbuf, to_read := 1, next := Handler.one_byte_size_ready } rfl,
      rfl, ⟨rfl, rfl, rfl⟩, rfl⟩
  · intro s alloc f hs
    obtain ⟨hnext, hrp, htr⟩ := hs
    obtain ⟨tb, ip, mm, rp, tr, nx⟩ := s
    simp only at hnext hrp htr
    subst hnext hrp htr
    exact ⟨_, rfl, rfl, ⟨rfl, rfl, rfl⟩, rfl, rfl⟩
  · intro s alloc body hs hlen
    obtain ⟨hnext, hrp, htr⟩ := hs
    have hb := deliver_body_size s body hrp (by rw [hlen, htr])
    have hnx : (deliver s body).next = Handler.message_ready := hb.2.2.2.2.2.1.trans hnext
    refine ⟨{ rc := 1, err := none,
              dec := next_step (deliver s body) Target.tmpbuf 1
                Handler.one_byte_size_ready }, ?_, rfl, ⟨rfl, rfl, rfl⟩⟩
    unfold dispatch
    rw [hnx]
    rfl

/-- C17: in every reachable decoder a pending request into the scratch buffer
asks for 1 or 8 bytes, never more than 8; the scratch buffer has 8 bytes and
still has 8 bytes after the requested bytes are delivered, so no request
writes past it; a request for more than 8 bytes targets the in-progress
message's own storage, and every request into that storage asks for exactly
the storage's size. -/
theorem C17_scratch_requests_bounded (size_max bufsize : Nat) (maxmsgsize : Int)
    (s : v1_decoder_t) (hr : reachable size_max bufsize maxmsgsize s) :
    (s.read_pos = Target.tmpbuf → s.to_read = 1 ∨ s.to_read = 8) ∧
    (s.read_pos = Target.tmpbuf → s.to_read ≤ 8) ∧
    s.tmpbuf.length = 8 ∧
    (∀ bytes : List UInt8, bytes.length = s.to_read → (deliver s bytes).tmpbuf.length = 8) ∧
    (8 < s.to_read → s.read_pos = Target.msg_data) ∧
    (s.read_pos = Target.msg_data → s.to_read = s.in_progress.size) := by
  obtain ⟨hl, _, _, hst⟩ := reachable_invariant size_max bufsize maxmsgsize s hr
  have hscratch : s.read_pos = Target.tmpbuf → s.to_read = 1 ∨ s.to_read = 8 := by
    intro hrp
    rcases hst with ⟨_, _, h⟩ | ⟨_, _, h⟩ | ⟨_, _, h⟩ | ⟨_, h, _⟩
    · exact Or.inl h
    · exact Or.inr h
    · exact Or.inl h
    · rw [hrp] at h
      exact absurd h (by simp)
  have hmsg : s.read_pos = Target.msg_data → s.to_read = s.in_progress.size := by
    intro hrp
    rcases hst with ⟨_, h, _⟩ | ⟨_, h, _⟩ | ⟨_, h, _⟩ | ⟨_, _, h⟩
    · rw [hrp] at h
      exact absurd h (by simp)
    · rw [hrp] at h
      exact absurd h (by simp)
    · rw [hrp] at h
      exact absurd h (by simp)
    · exact h
  have hle : s.read_pos = Target.tmpbuf → s.to_read ≤ 8 := by
    intro hrp
    rcases hscratch hrp with h | h <;> omega
  refine ⟨hscratch, hle, hl, ?_, ?_, hmsg⟩
  · intro bytes hbytes
    cases hrp : s.read_pos with
    | tmpbuf =>
      have h8 := hle hrp
      rw [deliver_tmpbuf s bytes hrp]
      simp only [List.length_append, List.length_drop]
      omega
    | msg_data =>
      have hb := deliver_body_size s bytes hrp (by rw [hbytes]; exact hmsg hrp)
      rw [hb.2.2.2.1]
      exact hl
  · intro h8
    cases hrp : s.read_pos with
    | tmpbuf =>
      have := hle hrp
      omega
    | msg_data => rfl

/-- Witness of C17: the freshly constructed decoder is reachable and requests 1
byte into its 8-byte scratch buffer. -/
theorem C17_scratch_requests_bounded_witness :
    reachable (2 ^ 64 - 1) 8192 (-1) (v1_decoder_t.new 8192 (-1)) ∧
    ((v1_decoder_t.new 8192 (-1)).read_pos = Target.tmpbuf →
      (v1_decoder_t.new 8192 (-1)).to_read = 1 ∨ (v1_decoder_t.new 8192 (-1)).to_read = 8) ∧
    (v1_decoder_t.new 8192 (-1)).tmpbuf.length = 8 :=
  ⟨reachable.init,
    (C17_scratch_requests_bounded (2 ^ 64 - 1) 8192 (-1) (v1_decoder_t.new 8192 (-1))
      reachable.init).1,
    (C17_scratch_requests_bounded (2 ^ 64 - 1) 8192 (-1) (v1_decoder_t.new 8192 (-1))
      reachable.init).2.2.1⟩

/-! ## Release before allocation -/

theorem deliver_valid (s : v1_decoder_t) (bytes : List UInt8) :
    (deliver s bytes).in_progress.valid = s.in_progress.valid := by
  unfold deliver
  cases s.read_pos <;> rfl

theorem deliver_holds (s : v1_decoder_t) (bytes : List UInt8) :
    (deliver s bytes).in_progress.holds = s.in_progress.holds := by
  unfold deliver
  cases s.read_pos with
  | tmpbuf => rfl
  | msg_data =>
    cases hd : s.in_progress.data with
    | none => simp [msg_t.holds, hd]
    | some d => simp [msg_t.holds, hd]

theorem holds_le_one (m : msg_t) : m.holds ≤ 1 := by
  unfold msg_t.holds
  cases m.data <;> simp

theorem alloc_in_progress_acct_ok (alloc : Nat → Bool) (s : v1_decoder_t) (h : storage_t)
    (n : Nat) (hv : s.in_progress.valid = true) (ha : alloc n = true) :
    alloc_in_progress_acct alloc s h n =
      some ({ rc := 0, err := none,
              dec := { s with
                in_progress := { valid := true, data := some (List.replicate n 0), flags := 0 }
                read_pos := Target.tmpbuf, to_read := 1, next := Handler.flags_ready } },
            { live := h.live - s.in_progress.holds + 1, releases := h.releases + 1,
              clobbered := h.clobbered }) := by
  simp [alloc_in_progress_acct, msg_t.close_acct, msg_t.init_size_acct, msg_t.close,
    msg_t.init_size, msg_t.holds, next_step, hv, ha]

theorem alloc_in_progress_acct_fail (alloc : Nat → Bool) (s : v1_decoder_t) (h : storage_t)
    (n : Nat) (hv : s.in_progress.valid = true) (ha : alloc n = false) :
    alloc_in_progress_acct alloc s h n =
      some ({ rc := -1, err := some Errno.ENOMEM,
              dec := { s with in_progress := msg_t.empty } },
            { live := h.live - s.in_progress.holds, releases := h.releases + 1,
              clobbered := h.clobbered }) := by
  simp [alloc_in_progress_acct, msg_t.close_acct, msg_t.init_size_acct, msg_t.init_acct,
    msg_t.close, msg_t.init_size, msg_t.init, msg_t.empty, msg_t.holds, hv, ha]

/-- The result of the size handlers' tail with storage accounting, on an
initialised in-progress message: the result without accounting, one release,
and one buffer committed when the allocation succeeds. -/
theorem alloc_in_progress_acct_cases (alloc : Nat → Bool) (s : v1_decoder_t) (h : storage_t)
    (n : Nat) (hv : s.in_progress.valid = true) :
    ∃ (o : Outcome) (h2 : storage_t),
      alloc_in_progress_acct alloc s h n = some (o, h2) ∧
      alloc_in_progress alloc s n = some o ∧
      o.dec.in_progress.valid = true ∧
      h2.releases = h.releases + 1 ∧ h2.clobbered = h.clobbered ∧
      h2.live = h.live - s.in_progress.holds + o.dec.in_progress.holds ∧
      ((o.dec.next = Handler.flags_ready ∧ o.err = none ∧ o.dec.in_progress.holds = 1) ∨
       (o.dec.next = s.next ∧ o.err = some Errno.ENOMEM ∧
          o.dec.in_progress = msg_t.empty)) := by
  by_cases ha : alloc n = true
  · exact ⟨_, _, alloc_in_progress_acct_ok alloc s h n hv ha,
      alloc_in_progress_ok alloc s n hv ha, rfl, rfl, rfl, rfl, Or.inl ⟨rfl, rfl, rfl⟩⟩
  · have ha2 : alloc n = false := by simpa using ha
    exact ⟨_, _, alloc_in_progress_acct_fail alloc s h n hv ha2,
      alloc_in_progress_fail alloc s n hv ha2, rfl, rfl, rfl, rfl, Or.inr ⟨rfl, rfl, rfl⟩⟩

/-- One handler invocation with storage accounting on a decoder whose
in-progress message is initialised: it returns, its outcome is the outcome of
the handler without accounting, and its effect on storage is one of three: an
accepted size (one release, then one buffer committed), an allocation failure
(one release, nothing committed, empty message), or no effect at all. -/
theorem dispatch_acct_cases (size_max : Nat) (alloc : Nat → Bool) (t : v1_decoder_t)
    (h : storage_t) (hv : t.in_progress.valid = true) :
    ∃ (o : Outcome) (h2 : storage_t),
      dispatch_acct size_max alloc t h = some (o, h2) ∧
      dispatch size_max alloc t = some o ∧
      o.dec.in_progress.valid = true ∧
      ((o.dec.next = Handler.flags_ready ∧ o.err = none ∧
          h2.releases = h.releases + 1 ∧ h2.clobbered = h.clobbered ∧
          h2.live = h.live - t.in_progress.holds + 1 ∧ o.dec.in_progress.holds = 1) ∨
       (o.dec.next ≠ Handler.flags_ready ∧ o.err = some Errno.ENOMEM ∧
          h2.releases = h.releases + 1 ∧ h2.clobbered = h.clobbered ∧
          h2.live = h.live - t.in_progress.holds ∧ o.dec.in_progress = msg_t.empty) ∨
       (o.dec.next ≠ Handler.flags_ready ∧ o.err ≠ some Errno.ENOMEM ∧ h2 = h ∧
          o.dec.in_progress.holds = t.in_progress.holds)) := by
  have tail : ∀ n : Nat, t.next ≠ Handler.flags_ready →
      ∃ (o : Outcome) (h2 : storage_t),
        alloc_in_progress_acct alloc t h n = some (o, h2) ∧
        alloc_in_progress alloc t n = some o ∧
        o.dec.in_progress.valid = true ∧
        ((o.dec.next = Handler.flags_ready ∧ o.err = none ∧
            h2.releases = h.releases + 1 ∧ h2.clobbered = h.clobbered ∧
            h2.live = h.live - t.in_progress.holds + 1 ∧ o.dec.in_progress.holds = 1) ∨
         (o.dec.next ≠ Handler.flags_ready ∧ o.err = some Errno.ENOMEM ∧
            h2.releases = h.releases + 1 ∧ h2.clobbered = h.clobbered ∧
            h2.live = h.live - t.in_progress.holds ∧ o.dec.in_progress = msg_t.empty) ∨
         (o.dec.next ≠ Handler.flags_ready ∧ o.err ≠ some Errno.ENOMEM ∧ h2 = h ∧
            o.dec.in_progress.holds = t.in_progress.holds)) := by
    intro n hnf
    obtain ⟨o, h2, e1, e2, hval, hrel, hcl, hlive, hc⟩ :=
      alloc_in_progress_acct_cases alloc t h n hv
    refine ⟨o, h2, e1, e2, hval, ?_⟩
    rcases hc with ⟨hn, he, hh⟩ | ⟨hn, he, hemp⟩
    · rw [hh] at hlive
      exact Or.inl ⟨hn, he, hrel, hcl, hlive, hh⟩
    · refine Or.inr (Or.inl ⟨by rw [hn]; exact hnf, he, hrel, hcl, ?_, hemp⟩)
      rw [hlive, hemp]
      rfl
  unfold dispatch_acct dispatch
  cases hnext : t.next with
  | one_byte_size_ready =>
    have hnf : t.next ≠ Handler.flags_ready := by rw [hnext]; simp
    simp only
    unfold one_byte_size_ready_acct
    dsimp only
    by_cases hff : (t.tmpbuf.getD 0 0).toNat = 0xff
    · rw [if_pos hff, one_byte_size_ready_long alloc t hff]
      exact ⟨_, _, rfl, rfl, hv, Or.inr (Or.inr ⟨by simp [next_step], by simp, rfl, rfl⟩)⟩
    · by_cases h0 : (t.tmpbuf.getD 0 0).toNat = 0
      · rw [if_neg hff, if_pos h0, one_byte_size_ready_zero alloc t h0]
        exact ⟨_, _, rfl, rfl, hv, Or.inr (Or.inr ⟨hnf, by simp, rfl, rfl⟩)⟩
      · by_cases hm : t.maxmsgsize ≥ 0 ∧ ((t.tmpbuf.getD 0 0).toNat : Int) - 1 > t.maxmsgsize
        · rw [if_neg hff, if_neg h0, if_pos hm,
            one_byte_size_ready_too_large alloc t hff h0 hm]
          exact ⟨_, _, rfl, rfl, hv, Or.inr (Or.inr ⟨hnf, by simp, rfl, rfl⟩)⟩
        · rw [if_neg hff, if_neg h0, if_neg hm, one_byte_size_ready_else alloc t hff h0 hm]
          exact tail _ hnf
  | eight_byte_size_ready =>
    have hnf : t.next ≠ Handler.flags_ready := by rw [hnext]; simp
    simp only
    unfold eight_byte_size_ready_acct
    dsimp only
    by_cases h0 : get_uint64 t.tmpbuf = 0
    · rw [if_pos h0, eight_byte_size_ready_zero size_max alloc t h0]
      exact ⟨_, _, rfl, rfl, hv, Or.inr (Or.inr ⟨hnf, by simp, rfl, rfl⟩)⟩
    · by_cases hm : t.maxmsgsize ≥ 0 ∧
          (get_uint64 t.tmpbuf + 2 ^ 64 - 1) % 2 ^ 64 > to_uint64 t.maxmsgsize
      · rw [if_neg h0, if_pos hm, eight_byte_size_ready_over_bound size_max alloc t h0 hm]
        exact ⟨_, _, rfl, rfl, hv, Or.inr (Or.inr ⟨hnf, by simp, rfl, rfl⟩)⟩
      · by_cases hsz : (get_uint64 t.tmpbuf + 2 ^ 64 - 1) % 2 ^ 64 > size_max
        · rw [if_neg h0, if_neg hm, if_pos hsz,
            eight_byte_size_ready_over_size_t size_max alloc t h0 hm hsz]
          exact ⟨_, _, rfl, rfl, hv, Or.inr (Or.inr ⟨hnf, by simp, rfl, rfl⟩)⟩
        · rw [if_neg h0, if_neg hm, if_neg hsz,
            eight_byte_size_ready_else size_max alloc t h0 hm hsz]
          exact tail _ hnf
  | flags_ready =>
    exact ⟨_, _, rfl, rfl, hv, Or.inr (Or.inr ⟨by simp [next_step], by simp, rfl, rfl⟩)⟩
  | message_ready =>
    exact ⟨_, _, rfl, rfl, hv, Or.inr (Or.inr ⟨by simp [next_step], by simp, rfl, rfl⟩)⟩

/-- Every reachable decoder with its storage account: the in-progress message
is initialised, the only live buffer is the one the message owns, and no
buffer was ever clobbered. -/
theorem reachable_acct_invariant (size_max bufsize : Nat) (maxmsgsize : Int)
    (s : v1_decoder_t) (h : storage_t)
    (hr : reachable_acct size_max bufsize maxmsgsize s h) :
    s.in_progress.valid = true ∧ h.live = s.in_progress.holds ∧ h.clobbered = 0 := by
  induction hr with
  | init => exact ⟨rfl, rfl, rfl⟩
  | step s h alloc bytes o h2 _ hd ih =>
    obtain ⟨hv, hlive, hcl⟩ := ih
    have hv2 : (deliver s bytes).in_progress.valid = true := by
      rw [deliver_valid]; exact hv
    obtain ⟨o', h2', e1, _, hval, hc⟩ :=
      dispatch_acct_cases size_max alloc (deliver s bytes) h hv2
    rw [e1] at hd
    obtain ⟨ho, hh⟩ := Prod.mk.inj (Option.some.inj hd)
    subst ho hh
    rw [deliver_holds] at hc
    refine ⟨hval, ?_, ?_⟩
    · rcases hc with ⟨_, _, _, _, hl, hh⟩ | ⟨_, _, _, _, hl, hemp⟩ | ⟨_, _, heq, hh⟩
      · rw [hl, hh, hlive]; omega
      · rw [hl, hemp, hlive]
        show s.in_progress.holds - s.in_progress.holds = 0
        omega
      · rw [heq, hh]; exact hlive
    · rcases hc with ⟨_, _, _, hc2, _⟩ | ⟨_, _, _, hc2, _⟩ | ⟨_, _, heq, _⟩
      · rw [hc2]; exact hcl
      · rw [hc2]; exact hcl
      · rw [heq]; exact hcl

/-- Every decoder reachable by handler invocations is reachable with a storage
account: the accounting follows the handlers without changing what they do. -/
theorem reachable_has_account (size_max bufsize : Nat) (maxmsgsize : Int) (s : v1_decoder_t)
    (hr : reachable size_max bufsize maxmsgsize s) :
    ∃ h : storage_t, reachable_acct size_max bufsize maxmsgsize s h := by
  induction hr with
  | init => exact ⟨_, reachable_acct.init⟩
  | step s alloc bytes o _ _ hd ih =>
    obtain ⟨h, hra⟩ := ih
    have hv := (reachable_acct_invariant size_max bufsize maxmsgsize s h hra).1
    have hv2 : (deliver s bytes).in_progress.valid = true := by
      rw [deliver_valid]; exact hv
    obtain ⟨o2, h2, e1, e2, _, _⟩ := dispatch_acct_cases size_max alloc (deliver s bytes) h hv2
    rw [hd] at e2
    have ho : o = o2 := Option.some.inj e2
    rw [ho]
    exact ⟨h2, reachable_acct.step s h alloc bytes o2 h2 hra e1⟩

/-- C15: at every decoder reachable by handler invocations from a fresh
decoder (any bytes delivered, any allocation outcomes) the only live buffer is
the one the in-progress message owns, so at most one, and no buffer has been
clobbered.  The next handler invocation returns, with the outcome of the
handler, and keeps this: a handler that accepts a size (it leaves
`flags_ready` pending) releases exactly once and then commits the one new
buffer; a handler that fails with `ENOMEM` releases exactly once, commits
nothing and leaves the empty message, without a second release; every other
invocation neither releases nor allocates.  No `init_size` or `init` is ever
made over a message that still owns a buffer. -/
theorem C15_release_before_allocate (size_max bufsize : Nat) (maxmsgsize : Int)
    (s : v1_decoder_t) (h : storage_t) (alloc : Nat → Bool) (bytes : List UInt8)
    (hr : reachable_acct size_max bufsize maxmsgsize s h) :
    (h.live = s.in_progress.holds ∧ h.live ≤ 1 ∧ h.clobbered = 0) ∧
    ∃ (o : Outcome) (h2 : storage_t),
      dispatch_acct size_max alloc (deliver s bytes) h = some (o, h2) ∧
      dispatch size_max alloc (deliver s bytes) = some o ∧
      h2.live = o.dec.in_progress.holds ∧ h2.live ≤ 1 ∧ h2.clobbered = 0 ∧
      (o.dec.next = Handler.flags_ready →
        h2.releases = h.releases + 1 ∧ h2.live = 1) ∧
      (o.err = some Errno.ENOMEM →
        h2.releases = h.releases + 1 ∧ h2.live = 0 ∧ o.dec.in_progress = msg_t.empty) ∧
      (o.dec.next ≠ Handler.flags_ready → o.err ≠ some Errno.ENOMEM → h2 = h) := by
  obtain ⟨hv, hlive, hcl⟩ := reachable_acct_invariant size_max bufsize maxmsgsize s h hr
  have hv2 : (deliver s bytes).in_progress.valid = true := by
    rw [deliver_valid]; exact hv
  obtain ⟨o, h2, e1, e2, _, hc⟩ := dispatch_acct_cases size_max alloc (deliver s bytes) h hv2
  have hnext := reachable_acct_invariant size_max bufsize maxmsgsize o.dec h2
    (reachable_acct.step s h alloc bytes o h2 hr e1)
  refine ⟨⟨hlive, by rw [hlive]; exact holds_le_one _, hcl⟩, o, h2, e1, e2, hnext.2.1,
    by rw [hnext.2.1]; exact holds_le_one _, hnext.2.2, ?_, ?_, ?_⟩
  · intro hfl
    rcases hc with ⟨_, _, hrel, _, _, hh⟩ | ⟨hn, _⟩ | ⟨hn, _⟩
    · exact ⟨hrel, by rw [hnext.2.1, hh]⟩
    · exact absurd hfl hn
    · exact absurd hfl hn
  · intro he
    rcases hc with ⟨_, hnone, _⟩ | ⟨_, _, hrel, _, _, hemp⟩ | ⟨_, hne, _⟩
    · rw [hnone] at he
      exact absurd he (by simp)
    · refine ⟨hrel, ?_, hemp⟩
      rw [hnext.2.1, hemp]
      rfl
    · exact absurd he hne
  · intro hfl he
    rcases hc with ⟨hn, _⟩ | ⟨_, hn, _⟩ | ⟨_, _, heq, _⟩
    · exact absurd hn hfl
    · exact absurd hn he
    · exact heq

/-- Witness of C15: the decoder that has completed the frame `"ABC"` is
reachable with one live buffer and one release so far; accepting the next size
byte 2 releases once more and leaves one live buffer. -/
theorem C15_release_before_allocate_witness :
    reachable_acct (2 ^ 64 - 1) 8192 (-1) abc_done_state
      { live := 1, releases := 1, clobbered := 0 } ∧
    dispatch_acct (2 ^ 64 - 1) (fun _ => true) (deliver abc_done_state [2])
        { live := 1, releases := 1, clobbered := 0 } =
      some ({ rc := 0, err := none,
              dec := { tmpbuf := [2, 0, 0, 0, 0, 0, 0, 0]
                       in_progress := { valid := true, data := some [0], flags := 0 }
                       maxmsgsize := -1, read_pos := Target.tmpbuf, to_read := 1,
                       next := Handler.flags_ready } },
            { live := 1, releases := 2, clobbered := 0 }) ∧
    ∃ (o : Outcome) (h2 : storage_t),
      dispatch_acct (2 ^ 64 - 1) (fun _ => true) (deliver abc_done_state [2])
        { live := 1, releases := 1, clobbered := 0 } = some (o, h2) ∧
      h2.live ≤ 1 ∧ h2.clobbered = 0 ∧
      (o.dec.next = Handler.flags_ready → h2.releases = 1 + 1 ∧ h2.live = 1) := by
  have r1 : reachable_acct (2 ^ 64 - 1) 8192 (-1)
      { tmpbuf := [4, 0, 0, 0, 0, 0, 0, 0]
        in_progress := { valid := true, data := some [0, 0, 0], flags := 0 }
        maxmsgsize := -1, read_pos := Target.tmpbuf, to_read := 1,
        next := Handler.flags_ready }
      { live := 1, releases := 1, clobbered := 0 } :=
    reachable_acct.step _ _ (fun _ => true) [4]
      { rc := 0, err := none,
        dec := { tmpbuf := [4, 0, 0, 0, 0, 0, 0, 0]
                 in_progress := { valid := true, data := some [0, 0, 0], flags := 0 }
                 maxmsgsize := -1, read_pos := Target.tmpbuf, to_read := 1,
                 next := Handler.flags_ready } }
      _ reachable_acct.init (by decide)
  have r2 : reachable_acct (2 ^ 64 - 1) 8192 (-1)
      { tmpbuf := [0, 0, 0, 0, 0, 0, 0, 0]
        in_progress := { valid := true, data := some [0, 0, 0], flags := 0 }
        maxmsgsize := -1, read_pos := Target.msg_data, to_read := 3,
        next := Handler.message_ready }
      { live := 1, releases := 1, clobbered := 0 } :=
    reachable_acct.step _ _ (fun _ => true) [0]
      { rc := 0, err := none,
        dec := { tmpbuf := [0, 0, 0, 0, 0, 0, 0, 0]
                 in_progress := { valid := true, data := some [0, 0, 0], flags := 0 }
                 maxmsgsize := -1, read_pos := Target.msg_data, to_read := 3,
                 next := Handler.message_ready } }
      _ r1 (by decide)
  have r3 : reachable_acct (2 ^ 64 - 1) 8192 (-1) abc_done_state
      { live := 1, releases := 1, clobbered := 0 } :=
    reachable_acct.step _ _ (fun _ => true) [0x41, 0x42, 0x43]
      { rc := 1, err := none, dec := abc_done_state } _ r2 (by decide)
  refine ⟨r3, by decide, ?_⟩
  obtain ⟨_, o, h2, e1, _, _, hle, hcl, hacc, _, _⟩ :=
    C15_release_before_allocate (2 ^ 64 - 1) 8192 (-1) abc_done_state
      { live := 1, releases := 1, clobbered := 0 } (fun _ => true) [2] r3
  exact ⟨o, h2, e1, hle, hcl, hacc⟩

/-! ## Streams of frames -/

theorem decode_stream_frames (size_max : Nat) (alloc : Nat → Bool) (fuel : Nat)
    (frames : List wire_frame) (k : Nat) (s : v1_decoder_t)
    (hs : awaiting_short_size s) (hv : s.in_progress.valid = true)
    (hw : ∀ fr ∈ frames,
      well_formed_frame size_max s.maxmsgsize alloc fr.flags fr.payload fr.bytes)
    (hfuel : 4 ≤ fuel) (hk : frames.length < k) :
    ∃ last : Outcome,
      decode_stream size_max alloc fuel k s (stream_of frames) =
        some (frames.map wire_frame.message, last) ∧
      last.rc = 0 ∧ last.err = none ∧ awaiting_short_size last.dec := by
  induction frames generalizing k s with
  | nil =>
    obtain ⟨k2, rfl⟩ : ∃ k2, k = k2 + 1 := ⟨k - 1, by simp at hk; omega⟩
    obtain ⟨f2, rfl⟩ : ∃ f2, fuel = f2 + 1 := ⟨fuel - 1, by omega⟩
    refine ⟨{ rc := 0, err := none, dec := s }, ?_, rfl, rfl, hs⟩
    have hd : decode size_max alloc (f2 + 1) s [] =
        some ({ rc := 0, err := none, dec := s }, 0) :=
      decode_suspend size_max alloc f2 s [] (by rw [hs.2.2]; exact Nat.zero_lt_one)
    simp [decode_stream, stream_of, hd]
  | cons fr frs ih =>
    obtain ⟨k2, rfl⟩ : ∃ k2, k = k2 + 1 := ⟨k - 1, by simp at hk; omega⟩
    have hwf := hw fr (List.mem_cons_self fr frs)
    obtain ⟨o, hd, hrc, _, hip, hs2, hmm⟩ :=
      decode_well_formed size_max alloc s fr.flags fr.payload fr.bytes (stream_of frs) fuel
        hs hv hwf hfuel
    have hv2 : o.dec.in_progress.valid = true := by rw [hip]
    obtain ⟨last, hrest, h1, h2, h3⟩ := ih k2 o.dec hs2 hv2
      (by
        intro fr2 hfr2
        rw [hmm]
        exact hw fr2 (List.mem_cons_of_mem fr hfr2))
      (by simp at hk; omega)
    refine ⟨last, ?_, h1, h2, h3⟩
    have hstream : stream_of (fr :: frs) = fr.bytes ++ stream_of frs := by
      simp [stream_of]
    rw [hstream, decode_stream, hd]
    simp only [hrc, if_true, List.drop_left, hrest, List.map_cons]
    rw [hip]
    rfl

/-- C11: for every list of `N` well-formed frames (each within the bound, with
the allocation succeeding), decoding their concatenation on one fresh decoder
yields exactly `N` messages, in stream order, and then stops waiting for the
next size byte; the `i`-th message is the message of the `i`-th frame (its
payload, with the continuation flag from bit 0 of its own flags byte), which
is also what the `i`-th frame alone yields on a fresh decoder.  A continuation
flag set by one frame does not carry over to the next. -/
theorem C11_stream_of_frames (bufsize : Nat) (maxmsgsize : Int) (size_max : Nat)
    (alloc : Nat → Bool) (fuel k : Nat) (frames : List wire_frame)
    (hw : ∀ fr ∈ frames,
      well_formed_frame size_max maxmsgsize alloc fr.flags fr.payload fr.bytes)
    (hfuel : 4 ≤ fuel) (hk : frames.length < k) :
    ∃ (msgs : List msg_t) (last : Outcome),
      decode_stream size_max alloc fuel k (v1_decoder_t.new bufsize maxmsgsize)
        (stream_of frames) = some (msgs, last) ∧
      last.rc = 0 ∧ awaiting_short_size last.dec ∧
      msgs.length = frames.length ∧
      ∀ (i : Nat) (fr : wire_frame), frames[i]? = some fr →
        msgs[i]? = some fr.message ∧
        observe (decode size_max alloc fuel (v1_decoder_t.new bufsize maxmsgsize) fr.bytes) =
          some (1, none, fr.message, fr.bytes.length) ∧
        fr.message.size = fr.payload.length ∧ fr.message.payload = fr.payload ∧
        (fr.message.has_more = true ↔ fr.flags.toNat % 2 = 1) := by
  obtain ⟨last, hd, h1, _, h3⟩ :=
    decode_stream_frames size_max alloc fuel frames k (v1_decoder_t.new bufsize maxmsgsize)
      ⟨rfl, rfl, rfl⟩ rfl hw hfuel hk
  refine ⟨_, last, hd, h1, h3, by simp, ?_⟩
  intro i fr hfr
  have hmem : fr ∈ frames := List.getElem?_mem hfr
  refine ⟨by simp [List.getElem?_map, hfr], ?_, rfl, rfl, has_more_iff _ _ fr.flags⟩
  have h := observe_decode_well_formed size_max alloc (v1_decoder_t.new bufsize maxmsgsize)
    fr.flags fr.payload fr.bytes [] fuel ⟨rfl, rfl, rfl⟩ rfl (hw fr hmem) hfuel
  rw [List.append_nil] at h
  exact h

/-! ## Fragmentation -/

theorem decode_inv (size_max : Nat) (alloc : Nat → Bool) (fuel : Nat) (s : v1_decoder_t)
    (x : List UInt8) (r : Outcome × Nat)
    (h : decode size_max alloc (fuel + 1) s x = some r) :
    (x.length < s.to_read ∧ r = ({ rc := 0, err := none, dec := s }, 0)) ∨
    (s.to_read ≤ x.length ∧ ∃ o1 : Outcome,
      dispatch size_max alloc (deliver s (x.take s.to_read)) = some o1 ∧
      ((o1.rc ≠ 0 ∧ r = (o1, s.to_read)) ∨
       (o1.rc = 0 ∧ ∃ r2 : Outcome × Nat,
          decode size_max alloc fuel o1.dec (x.drop s.to_read) = some r2 ∧
          r = (r2.1, s.to_read + r2.2)))) := by
  by_cases hlen : x.length < s.to_read
  · rw [decode_suspend size_max alloc fuel s x hlen] at h
    exact Or.inl ⟨hlen, (Option.some.inj h).symm⟩
  · have hle : s.to_read ≤ x.length := by omega
    refine Or.inr ⟨hle, ?_⟩
    cases hd : dispatch size_max alloc (deliver s (x.take s.to_read)) with
    | none =>
      rw [decode, if_neg hlen, hd] at h
      exact absurd h (by simp)
    | some o1 =>
      refine ⟨o1, rfl, ?_⟩
      by_cases hrc : o1.rc = 0
      · rw [decode_continue size_max alloc fuel s x o1 hle hd hrc] at h
        cases hr : decode size_max alloc fuel o1.dec (x.drop s.to_read) with
        | none =>
          rw [hr] at h
          exact absurd h (by simp)
        | some r2 =>
          rw [hr] at h
          exact Or.inr ⟨hrc, r2, rfl, (Option.some.inj h).symm⟩
      · rw [decode_stop size_max alloc fuel s x o1 hle hd hrc] at h
        exact Or.inl ⟨hrc, (Option.some.inj h).symm⟩

theorem decode_fuel_succ (size_max : Nat) (alloc : Nat → Bool) (fuel : Nat) :
    ∀ (s : v1_decoder_t) (x : List UInt8) (r : Outcome × Nat),
      decode size_max alloc fuel s x = some r →
      decode size_max alloc (fuel + 1) s x = some r := by
  induction fuel with
  | zero =>
    intro s x r h
    exact absurd h (by simp [decode])
  | succ f ih =>
    intro s x r h
    rcases decode_inv size_max alloc f s x r h with ⟨hlen, hr⟩ | ⟨hle, o1, hd, hc⟩
    · rw [hr]
      exact decode_suspend size_max alloc (f + 1) s x hlen
    · rcases hc with ⟨hrc, hr⟩ | ⟨hrc, r2, h2, hr⟩
      · rw [hr]
        exact decode_stop size_max alloc (f + 1) s x o1 hle hd hrc
      · rw [decode_continue size_max alloc (f + 1) s x o1 hle hd hrc, ih _ _ _ h2, hr]
        rfl

theorem decode_bounds (size_max : Nat) (alloc : Nat → Bool) (fuel : Nat) :
    ∀ (s : v1_decoder_t) (x : List UInt8) (o : Outcome) (n : Nat),
      decode size_max alloc fuel s x = some (o, n) →
      n ≤ x.length ∧ (o.rc = 0 → x.length - n < o.dec.to_read) := by
  induction fuel with
  | zero =>
    intro s x o n h
    exact absurd h (by simp [decode])
  | succ f ih =>
    intro s x o n h
    rcases decode_inv size_max alloc f s x (o, n) h with ⟨hlen, hr⟩ | ⟨hle, o1, hd, hc⟩
    · obtain ⟨ho, hn⟩ := Prod.mk.inj hr
      rw [ho, hn]
      exact ⟨Nat.zero_le _, fun _ => hlen⟩
    · rcases hc with ⟨hrc, hr⟩ | ⟨hrc, r2, h2, hr⟩
      · obtain ⟨ho, hn⟩ := Prod.mk.inj hr
        rw [ho, hn]
        exact ⟨hle, fun hc => absurd hc hrc⟩
      · obtain ⟨ho, hn⟩ := Prod.mk.inj hr
        obtain ⟨hb1, hb2⟩ := ih o1.dec (x.drop s.to_read) r2.1 r2.2 h2
        rw [List.length_drop] at hb1 hb2
        rw [ho, hn]
        refine ⟨by omega, fun hc => ?_⟩
        have := hb2 hc
        omega

theorem decode_split (size_max : Nat) (alloc : Nat → Bool) (fuel : Nat) :
    ∀ (s : v1_decoder_t) (a b : List UInt8) (r : Outcome × Nat),
      decode size_max alloc fuel s (a ++ b) = some r →
      ∃ (o1 : Outcome) (n1 : Nat), decode size_max alloc fuel s a = some (o1, n1) ∧
        ((o1.rc ≠ 0 ∧ r = (o1, n1)) ∨
         (o1.rc = 0 ∧ ∃ r2 : Outcome × Nat,
            decode size_max alloc fuel o1.dec (a.drop n1 ++ b) = some r2 ∧
            r = (r2.1, n1 + r2.2))) := by
  induction fuel with
  | zero =>
    intro s a b r h
    exact absurd h (by simp [decode])
  | succ f ih =>
    intro s a b r h
    by_cases hlen : a.length < s.to_read
    · refine ⟨_, _, decode_suspend size_max alloc f s a hlen, Or.inr ⟨rfl, r, ?_, ?_⟩⟩
      · simpa using h
      · simp
    · have hle : s.to_read ≤ a.length := by omega
      have htake : (a ++ b).take s.to_read = a.take s.to_read :=
        List.take_append_of_le_length hle
      have hdrop : (a ++ b).drop s.to_read = a.drop s.to_read ++ b :=
        List.drop_append_of_le_length hle
      rcases decode_inv size_max alloc f s (a ++ b) r h with ⟨hl2, _⟩ | ⟨_, o1, hd, hc⟩
      · rw [List.length_append] at hl2
        omega
      · rw [htake] at hd
        rcases hc with ⟨hrc, hr⟩ | ⟨hrc, r2, h2, hr⟩
        · exact ⟨o1, s.to_read, decode_stop size_max alloc f s a o1 hle hd hrc,
            Or.inl ⟨hrc, hr⟩⟩
        · rw [hdrop] at h2
          obtain ⟨o2, n2, hda, hcase⟩ := ih o1.dec (a.drop s.to_read) b r2 h2
          have hwhole : decode size_max alloc (f + 1) s a = some (o2, s.to_read + n2) := by
            rw [decode_continue size_max alloc f s a o1 hle hd hrc, hda]
            rfl
          refine ⟨o2, s.to_read + n2, hwhole, ?_⟩
          rcases hcase with ⟨hrc2, hr2⟩ | ⟨hrc2, r3, h3, hr3⟩
          · refine Or.inl ⟨hrc2, ?_⟩
            rw [hr, hr2]
          · refine Or.inr ⟨hrc2, r3, ?_, ?_⟩
            · rw [List.drop_drop] at h3
              exact decode_fuel_succ size_max alloc f _ _ _ h3
            · rw [hr, hr3]
              simp only [Nat.add_assoc]

theorem feed_all_decode (size_max : Nat) (alloc : Nat → Bool) (fuel : Nat) :
    ∀ (chunks : List (List UInt8)) (e : engine_t) (o : Outcome) (n : Nat),
      e.pending.length < e.dec.to_read →
      decode size_max alloc fuel e.dec (e.pending ++ chunks.flatten) = some (o, n) →
      o.rc ≠ 0 →
      ∃ e2 : engine_t, engine_t.feed_all size_max alloc fuel e chunks = some (o, e2) ∧
        e2.dec = o.dec ∧ e2.pending.length + n ≤ e.pending.length + chunks.flatten.length := by
  intro chunks
  induction chunks with
  | nil =>
    intro e o n hidle hd hrc
    exfalso
    obtain ⟨f2, rfl⟩ : ∃ f2, fuel = f2 + 1 := by
      cases fuel with
      | zero => exact absurd hd (by simp [decode])
      | succ f2 => exact ⟨f2, rfl⟩
    simp only [List.flatten_nil, List.append_nil] at hd
    rw [decode_suspend size_max alloc f2 e.dec e.pending hidle] at hd
    have ho := (Prod.mk.inj (Option.some.inj hd)).1
    rw [← ho] at hrc
    exact hrc rfl
  | cons c cs ih =>
    intro e o n hidle hd hrc
    have happ : e.pending ++ (c :: cs).flatten = (e.pending ++ c) ++ cs.flatten := by
      simp
    rw [happ] at hd
    obtain ⟨o1, n1, hd1, hcase⟩ :=
      decode_split size_max alloc fuel e.dec (e.pending ++ c) cs.flatten (o, n) hd
    obtain ⟨hb1, hb2⟩ := decode_bounds size_max alloc fuel _ _ _ _ hd1
    have hfeed : engine_t.feed size_max alloc fuel e c =
        some (o1, { dec := o1.dec, pending := (e.pending ++ c).drop n1 }) := by
      simp [engine_t.feed, hd1]
    have hlen : (c :: cs).flatten.length = c.length + cs.flatten.length := by simp
    rcases hcase with ⟨hrc1, hr⟩ | ⟨hrc1, r2, h2, hr⟩
    · obtain ⟨ho, hn⟩ := Prod.mk.inj hr
      refine ⟨{ dec := o1.dec, pending := (e.pending ++ c).drop n1 }, ?_, ?_, ?_⟩
      · rw [engine_t.feed_all, hfeed]
        simp only [hrc1, ne_eq, not_false_eq_true, if_true]
        rw [ho]
      · rw [ho]
      · simp only [List.length_drop, List.length_append] at hb1 ⊢
        rw [hlen, hn]
        omega
    · obtain ⟨ho, hn⟩ := Prod.mk.inj hr
      have hidle2 : ((e.pending ++ c).drop n1).length < o1.dec.to_read := by
        rw [List.length_drop]
        exact hb2 hrc1
      have hrc2 : r2.1.rc ≠ 0 := by rw [← ho]; exact hrc
      obtain ⟨e3, hf3, hdec3, hlen3⟩ :=
        ih { dec := o1.dec, pending := (e.pending ++ c).drop n1 } r2.1 r2.2 hidle2 h2 hrc2
      refine ⟨e3, ?_, ?_, ?_⟩
      · rw [engine_t.feed_all, hfeed]
        simp only [hrc1, ne_eq, not_true_eq_false, if_false]
        rw [hf3, ho]
      · rw [hdec3, ho]
      · simp only [List.length_drop, List.length_append] at hb1 hlen3 ⊢
        rw [hlen, hn]
        omega

theorem flatten_singletons (l : List UInt8) : (l.map (fun b => [b])).flatten = l := by
  induction l with
  | nil => rfl
  | cons b t ih => simp [ih]

/-- C12: for every well-formed frame and every way of splitting its bytes into
consecutive chunks (one byte at a time in particular), feeding the chunks one
after the other to the Buffering Engine, which runs the pending handler only
once the requested byte count has accumulated, ends with the same handler
outcome as feeding the frame as a single chunk: the same completed message
(size, payload, continuation flag), the same final decoder and nothing left
accumulated. -/
theorem C12_fragmentation_invariance (bufsize : Nat) (maxmsgsize : Int) (size_max : Nat)
    (alloc : Nat → Bool) (fuel : Nat) (f : UInt8) (payload frame : List UInt8)
    (chunks : List (List UInt8))
    (hw : well_formed_frame size_max maxmsgsize alloc f payload frame)
    (hfuel : 4 ≤ fuel) (hsplit : chunks.flatten = frame) :
    ∃ o : Outcome,
      engine_t.feed_all size_max alloc fuel
        { dec := v1_decoder_t.new bufsize maxmsgsize, pending := [] } [frame] =
          some (o, { dec := o.dec, pending := [] }) ∧
      engine_t.feed_all size_max alloc fuel
        { dec := v1_decoder_t.new bufsize maxmsgsize, pending := [] } chunks =
          some (o, { dec := o.dec, pending := [] }) ∧
      engine_t.feed_all size_max alloc fuel
        { dec := v1_decoder_t.new bufsize maxmsgsize, pending := [] }
        (frame.map (fun b => [b])) = some (o, { dec := o.dec, pending := [] }) ∧
      decode size_max alloc fuel (v1_decoder_t.new bufsize maxmsgsize) frame =
        some (o, frame.length) ∧
      o.rc = 1 ∧
      o.dec.in_progress = { valid := true, data := some payload, flags := f &&& msg_t.more } ∧
      o.dec.in_progress.size = payload.length ∧
      (o.dec.in_progress.has_more = true ↔ f.toNat % 2 = 1) ∧
      awaiting_short_size o.dec := by
  obtain ⟨o, hd, hrc, _, hip, hs, _⟩ :=
    decode_well_formed size_max alloc (v1_decoder_t.new bufsize maxmsgsize) f payload frame []
      fuel ⟨rfl, rfl, rfl⟩ rfl hw hfuel
  rw [List.append_nil] at hd
  have key : ∀ cs : List (List UInt8), cs.flatten = frame →
      engine_t.feed_all size_max alloc fuel
        { dec := v1_decoder_t.new bufsize maxmsgsize, pending := [] } cs =
          some (o, { dec := o.dec, pending := [] }) := by
    intro cs hcs
    obtain ⟨e2, hf, hdec, hlen⟩ :=
      feed_all_decode size_max alloc fuel cs
        { dec := v1_decoder_t.new bufsize maxmsgsize, pending := [] } o frame.length
        Nat.zero_lt_one (by rw [hcs]; exact hd) (by rw [hrc]; decide)
    have hp : e2.pending = [] := by
      apply List.eq_nil_of_length_eq_zero
      simp only [List.length_nil, hcs] at hlen
      omega
    rw [hf]
    cases e2 with
    | mk d p =>
      simp only at hdec hp
      rw [hdec, hp]
  refine ⟨o, key [frame] (by simp), key chunks hsplit,
    key _ (flatten_singletons frame), hd, hrc, hip, ?_, ?_, hs⟩
  · rw [hip]
    rfl
  · rw [hip]
    exact has_more_iff _ _ f

/-- Witness of C12: the frame `[0x04, 0x00, 0x41, 0x42, 0x43]` fed as the chunks
`[0x04]`, `[]`, `[0x00, 0x41]`, `[0x42, 0x43]` to a fresh unlimited decoder
gives the message `"ABC"`, as the single chunk does. -/
theorem C12_fragmentation_invariance_witness :
    well_formed_frame (2 ^ 64 - 1) (-1) (fun _ => true) 0x00 [0x41, 0x42, 0x43]
      [0x04, 0x00, 0x41, 0x42, 0x43] ∧
    (4 ≤ 4) ∧
    ([[0x04], [], [0x00, 0x41], [0x42, 0x43]] : List (List UInt8)).flatten =
      [0x04, 0x00, 0x41, 0x42, 0x43] ∧
    ∃ o : Outcome,
      engine_t.feed_all (2 ^ 64 - 1) (fun _ => true) 4
        { dec := v1_decoder_t.new 8192 (-1), pending := [] }
        [[0x04], [], [0x00, 0x41], [0x42, 0x43]] = some (o, { dec := o.dec, pending := [] }) ∧
      engine_t.feed_all (2 ^ 64 - 1) (fun _ => true) 4
        { dec := v1_decoder_t.new 8192 (-1), pending := [] }
        [[0x04, 0x00, 0x41, 0x42, 0x43]] = some (o, { dec := o.dec, pending := [] }) ∧
      o.dec.in_progress = { valid := true, data := some [0x41, 0x42, 0x43], flags := 0 } := by
  refine ⟨by decide, by decide, by decide, ?_⟩
  obtain ⟨o, h1, h2, _, _, _, h6, _⟩ :=
    C12_fragmentation_invariance 8192 (-1) (2 ^ 64 - 1) (fun _ => true) 4 0x00
      [0x41, 0x42, 0x43] [0x04, 0x00, 0x41, 0x42, 0x43]
      [[0x04], [], [0x00, 0x41], [0x42, 0x43]] (by decide) (by decide) (by decide)
  exact ⟨o, h2, h1, h6⟩

/-- Witness of C11: the frames `"X"` (continuation) and `"ABC"` (final) in one
stream give two messages in order; the second has no continuation flag. -/
theorem C11_stream_of_frames_witness :
    (∀ fr ∈ example_frames,
      well_formed_frame (2 ^ 64 - 1) (-1) (fun _ => true) fr.flags fr.payload fr.bytes) ∧
    (4 ≤ 4) ∧ (example_frames.length < 3) ∧
    ∃ (msgs : List msg_t) (last : Outcome),
      decode_stream (2 ^ 64 - 1) (fun _ => true) 4 3 (v1_decoder_t.new 8192 (-1))
        [0x02, 0x01, 0x58, 0x04, 0x00, 0x41, 0x42, 0x43] = some (msgs, last) ∧
      msgs.length = 2 ∧
      msgs[0]? = some { valid := true, data := some [0x58], flags := 1 } ∧
      msgs[1]? = some { valid := true, data := some [0x41, 0x42, 0x43], flags := 0 } := by
  have hw : ∀ fr ∈ example_frames,
      well_formed_frame (2 ^ 64 - 1) (-1) (fun _ => true) fr.flags fr.payload fr.bytes := by
    decide
  refine ⟨hw, by decide, by decide, ?_⟩
  obtain ⟨msgs, last, h1, _, _, h4, h5⟩ :=
    C11_stream_of_frames 8192 (-1) (2 ^ 64 - 1) (fun _ => true) 4 3 example_frames hw
      (by decide) (by decide)
  exact ⟨msgs, last, h1, h4, (h5 0 _ rfl).1, (h5 1 _ rfl).1⟩

/-! ## Return codes -/

/-- C13: every handler invocation that returns gives exactly one of 0
(continue, no `errno`), 1 (message ready, no `errno`) or `-1` with exactly one
of `EPROTO`, `EMSGSIZE`, `ENOMEM`.  `message_ready` always returns 1 and is the
only handler that does; `flags_ready` always returns 0; `one_byte_size_ready`
and `eight_byte_size_ready` return 0 or `-1`, never 1, and they do return
whenever the in-progress message is initialised (so that the assertion on
`close` holds), which is the case in every decoder reachable from a fresh
one: there the pending handler returns whatever bytes are delivered. -/
theorem C13_handler_return_codes (size_max : Nat) (alloc : Nat → Bool) (s : v1_decoder_t) :
    (∃ o : Outcome, message_ready s = some o ∧ o.rc = 1 ∧ o.err = none) ∧
    (∃ o : Outcome, flags_ready s = some o ∧ o.rc = 0 ∧ o.err = none) ∧
    (∀ o : Outcome,
      one_byte_size_ready alloc s = some o ∨ eight_byte_size_ready size_max alloc s = some o →
      (o.rc = 0 ∧ o.err = none) ∨
      (o.rc = -1 ∧ (o.err = some Errno.EPROTO ∨ o.err = some Errno.EMSGSIZE ∨
        o.err = some Errno.ENOMEM))) ∧
    (s.in_progress.valid = true →
      (∃ o : Outcome, one_byte_size_ready alloc s = some o) ∧
      (∃ o : Outcome, eight_byte_size_ready size_max alloc s = some o)) ∧
    (∀ o : Outcome, dispatch size_max alloc s = some o →
      (o.rc = 0 ∨ o.rc = 1 ∨ o.rc = -1) ∧
      (o.rc = 1 ↔ s.next = Handler.message_ready) ∧
      (o.rc = -1 ↔ o.err ≠ none) ∧
      (o.rc = -1 →
        s.next = Handler.one_byte_size_ready ∨ s.next = Handler.eight_byte_size_ready)) ∧
    (∀ (bufsize : Nat) (maxmsgsize : Int) (bytes : List UInt8),
      reachable size_max bufsize maxmsgsize s →
      ∃ o : Outcome, dispatch size_max alloc (deliver s bytes) = some o) := by
  have sizes : ∀ o : Outcome,
      one_byte_size_ready alloc s = some o ∨ eight_byte_size_ready size_max alloc s = some o →
      (o.rc = 0 ∧ o.err = none) ∨
      (o.rc = -1 ∧ (o.err = some Errno.EPROTO ∨ o.err = some Errno.EMSGSIZE ∨
        o.err = some Errno.ENOMEM)) := by
    intro o h
    rcases size_handler_cases size_max alloc s o h with ⟨_, _, ho⟩ | ⟨hrc, he, _⟩ |
      ⟨_, n, _, ho⟩ | ⟨_, ho⟩
    · rw [ho]; exact Or.inl ⟨rfl, rfl⟩
    · rcases he with he | he
      · exact Or.inr ⟨hrc, Or.inl he⟩
      · exact Or.inr ⟨hrc, Or.inr (Or.inl he)⟩
    · rw [ho]; exact Or.inl ⟨rfl, rfl⟩
    · rw [ho]; exact Or.inr ⟨rfl, Or.inr (Or.inr rfl)⟩
  have tail : ∀ (t : v1_decoder_t) (n : Nat), t.in_progress.valid = true →
      ∃ o : Outcome, alloc_in_progress alloc t n = some o := by
    intro t n hv
    by_cases ha : alloc n = true
    · exact ⟨_, alloc_in_progress_ok alloc t n hv ha⟩
    · exact ⟨_, alloc_in_progress_fail alloc t n hv (by simpa using ha)⟩
  have total : ∀ t : v1_decoder_t, t.in_progress.valid = true →
      (∃ o : Outcome, one_byte_size_ready alloc t = some o) ∧
      (∃ o : Outcome, eight_byte_size_ready size_max alloc t = some o) := by
    intro t hv
    constructor
    · by_cases hff : (t.tmpbuf.getD 0 0).toNat = 0xff
      · exact ⟨_, one_byte_size_ready_long alloc t hff⟩
      · by_cases h0 : (t.tmpbuf.getD 0 0).toNat = 0
        · exact ⟨_, one_byte_size_ready_zero alloc t h0⟩
        · by_cases hm : t.maxmsgsize ≥ 0 ∧
              ((t.tmpbuf.getD 0 0).toNat : Int) - 1 > t.maxmsgsize
          · exact ⟨_, one_byte_size_ready_too_large alloc t hff h0 hm⟩
          · rw [one_byte_size_ready_else alloc t hff h0 hm]
            exact tail t _ hv
    · by_cases h0 : get_uint64 t.tmpbuf = 0
      · exact ⟨_, eight_byte_size_ready_zero size_max alloc t h0⟩
      · by_cases hm : t.maxmsgsize ≥ 0 ∧
            (get_uint64 t.tmpbuf + 2 ^ 64 - 1) % 2 ^ 64 > to_uint64 t.maxmsgsize
        · exact ⟨_, eight_byte_size_ready_over_bound size_max alloc t h0 hm⟩
        · by_cases hsz : (get_uint64 t.tmpbuf + 2 ^ 64 - 1) % 2 ^ 64 > size_max
          · exact ⟨_, eight_byte_size_ready_over_size_t size_max alloc t h0 hm hsz⟩
          · rw [eight_byte_size_ready_else size_max alloc t h0 hm hsz]
            exact tail t _ hv
  refine ⟨⟨_, rfl, rfl, rfl⟩, ⟨_, rfl, rfl, rfl⟩, sizes, total s, ?_, ?_⟩
  · intro o hd
    unfold dispatch at hd
    cases hnext : s.next with
    | one_byte_size_ready =>
      rw [hnext] at hd
      rcases sizes o (Or.inl hd) with ⟨hrc, he⟩ | ⟨hrc, he⟩
      · simp [hrc, he]
      · rcases he with he | he | he <;> simp [hrc, he]
    | eight_byte_size_ready =>
      rw [hnext] at hd
      rcases sizes o (Or.inr hd) with ⟨hrc, he⟩ | ⟨hrc, he⟩
      · simp [hrc, he]
      · rcases he with he | he | he <;> simp [hrc, he]
    | flags_ready =>
      rw [hnext] at hd
      have ho : o = _ := (Option.some.inj hd).symm
      rw [ho]
      simp
    | message_ready =>
      rw [hnext] at hd
      have ho : o = _ := (Option.some.inj hd).symm
      rw [ho]
      simp
  · intro bufsize maxmsgsize bytes hr
    have hv := (reachable_invariant size_max bufsize maxmsgsize s hr).2.1
    have hv2 : (deliver s bytes).in_progress.valid = true := by
      rw [deliver_valid]; exact hv
    unfold dispatch
    cases (deliver s bytes).next with
    | one_byte_size_ready => exact (total _ hv2).1
    | eight_byte_size_ready => exact (total _ hv2).2
    | flags_ready => exact ⟨_, rfl⟩
    | message_ready => exact ⟨_, rfl⟩

end V1Decoder

